import Mathlib

/-!
Shallow embedding of the portfolio optimizer of `riskfolio_optimizer.py`
(MF-AI-Tool), together with proofs checking the natural-language
specification against it.

Modelling conventions
- Python floats are modelled as exact rationals (`ℚ`).  Python's
  `round(x, 2)` is modelled by `round2` below using Mathlib's `round`
  (round-half-up); the two agree except on exact representational halves,
  which none of the concrete inputs used here touch.
- A Python dict of fund-name → weight is modelled as an association list
  `WMap := List (String × ℚ)` in insertion order, with dict-faithful
  operations: lookup of the first matching key, assignment that updates an
  existing key in place and otherwise appends, and deletion by key.
- A pandas `Series` of daily returns is modelled by `RSeries`: either a
  valid series of rational values, or an invalid value (something that is
  not a `pd.Series`, e.g. a plain list) carrying only its Python length.
- The scipy SLSQP solve block (`riskfolio_optimizer.py` lines 306-418) is
  abstracted by a `SolverOutcome` oracle argument: either the final
  `weights_array` it produces (any rational vector — the block always
  yields *some* array when it returns) or a raised exception's text.
  Everything downstream of that block (clamping, normalisation, dict
  construction and the three constraint passes) is embedded exactly.
- The global fund universe `FUND_DATA` is passed explicitly as a
  `List Fund` parameter.
-/

namespace MFTool

/-- Model of Python `round(x, 2)`: round to 2 decimal places. -/
def round2 (x : ℚ) : ℚ := (round (x * 100) : ℤ) / 100

/-- Python `needle in hay` on lists of characters. -/
def listContains (needle : List Char) : List Char → Bool
  | [] => needle.isPrefixOf []
  | c :: t => needle.isPrefixOf (c :: t) || listContains needle t

/-- Python substring test `needle in hay` for strings. -/
def pyIn (needle hay : String) : Bool := listContains needle.data hay.data

/-- Python `str.strip()`: remove leading and trailing whitespace. -/
def pyStrip (s : String) : String :=
  ⟨((s.data.dropWhile Char.isWhitespace).reverse.dropWhile Char.isWhitespace).reverse⟩

/-- Python `str.lower()` (ASCII case folding). -/
def pyLower (s : String) : String := ⟨s.data.map Char.toLower⟩

/-- Weights map: Python dict fund-name → percent, in insertion order. -/
abbrev WMap := List (String × ℚ)

/-- Dict read with default 0: Python `weights_dict.get(name, 0)`. -/
def wget (m : WMap) (k : String) : ℚ := ((m.lookup k).getD 0)

/-- Dict membership: Python `name in weights_dict`. -/
def wmem (m : WMap) (k : String) : Bool := m.any (fun p => p.1 == k)

/-- Dict assignment `m[k] = v`: update an existing key in place, else append. -/
def wset (m : WMap) (k : String) (v : ℚ) : WMap :=
  bif wmem m k then m.map (fun p => bif p.1 == k then (p.1, v) else p)
  else m ++ [(k, v)]

/-- Dict deletion `del m[k]`. -/
def wdel (m : WMap) (k : String) : WMap := m.filter (fun p => ! (p.1 == k))

/-- Sum of all values of the map: Python `sum(m.values())`. -/
def wsum (m : WMap) : ℚ := (m.map (fun p => p.2)).sum

/-- Build a dict from a list of key/value pairs by repeated assignment
(later occurrences of a key overwrite earlier ones, as in Python dict
comprehensions). -/
def dictOfList (l : List (String × ℚ)) : WMap :=
  l.foldl (fun acc p => wset acc p.1 p.2) []

/-- Daily return series of a fund: either a valid `pd.Series` of values, or
an invalid value (not a `pd.Series`, e.g. a plain Python list) carrying
only the length that Python's `len` would report for it. -/
inductive RSeries where
  | valid (vals : List ℚ)
  | invalid (n : Nat)
deriving DecidableEq, Repr

/-- Python `len(fund["returns_series"])`. -/
def RSeries.len : RSeries → Nat
  | .valid vals => vals.length
  | .invalid n => n

/-- Whether the series is a genuine `pd.Series` (the `isinstance` check at
`riskfolio_optimizer.py:166`). -/
def RSeries.isValid : RSeries → Bool
  | .valid _ => true
  | .invalid _ => false

/-- Fund record, the fields of the fund universe rows that the optimizer
reads (`name`, `type`, `currency`, `geography`, `category`, the summary
`returns` used as the selection sort key, and the daily return series). -/
structure Fund where
  name : String
  type : String
  currency : String
  geography : String
  category : String
  returns : ℚ
  returns_series : RSeries
deriving DecidableEq, Repr

/-- Arguments of `risk_folio` (`riskfolio_optimizer.py:21-31`).
`fund_counts` values are `Option Int` (`None`, or unparsable, counts are
skipped); `suggested_funds` maps category → list of `fund_info.get("name")`
results. -/
structure OptArgs where
  currency : String
  primary_risk_bucket : String
  sub_risk_bucket : String
  volatility_target_pct : Option ℚ := none
  drawdown_target_pct : Option ℚ := none
  fund_counts : List (String × Option Int) := []
  asset_split_targets : List (String × ℚ) := []
  geography_constraints : List (String × ℚ) := []
  tax_saver_target_pct : Option ℚ := none
  suggested_funds : Option (List (String × List (Option String))) := none
deriving Repr

/-- Result dict of `risk_folio`; every Python key is optional because the
different return sites populate different subsets of keys.  The `funds`
reporting list is abstracted to the fund names (the Python value is the
fund rows with the return series stripped). -/
structure Result where
  weights : Option WMap := none
  funds : Option (List String) := none
  model_used : Option String := none
  risk_measure : Option String := none
  error : Option String := none
  optimization_success : Option Bool := none
  total_weight : Option ℚ := none
deriving DecidableEq, Repr

/-- Outcome of the scipy solve block (lines 306-418): the produced
`weights_array`, or the text of an exception it raised. -/
inductive SolverOutcome where
  | ok (x : List ℚ)
  | err (msg : String)
deriving DecidableEq, Repr

/-- Embedding of `select_optimization_model`
(`riskfolio_optimizer.py:675-727`).  Note the Python code tests
`"HIGH" in sub_risk_bucket` etc. against the WHOLE sub-risk token. -/
def select_optimization_model (primary_risk_bucket sub_risk_bucket : String)
    (volatility_target_pct drawdown_target_pct : Option ℚ) : String × String :=
  -- lines 697-702: every branch assigns 'Variance'
  let risk_measure :=
    if drawdown_target_pct.isSome then "Variance"
    else if (match volatility_target_pct with
             | some v => decide (v < 20)
             | none => false) then "Variance"
    else "Variance"
  if primary_risk_bucket == "HIGH" then
    if pyIn "HIGH" sub_risk_bucket then ("max_return", risk_measure)
    else if pyIn "MEDIUM" sub_risk_bucket then ("max_alpha", risk_measure)
    else ("max_sharpe", risk_measure)
  else if primary_risk_bucket == "MEDIUM" then
    if pyIn "HIGH" sub_risk_bucket then ("max_sharpe", risk_measure)
    else if pyIn "MEDIUM" sub_risk_bucket then ("risk_parity", risk_measure)
    else ("risk_parity", risk_measure)
  else
    if pyIn "HIGH" sub_risk_bucket then ("risk_parity", risk_measure)
    else if pyIn "MEDIUM" sub_risk_bucket then ("min_volatility", risk_measure)
    else ("min_volatility", risk_measure)

/-- Final renormalisation shared by the asset-split pass (lines 535-538)
and the tax-saver pass (lines 666-669): rescale every value by
`100 / total` and round to 2 decimals, but only when the total is
positive; otherwise the map is returned unchanged. -/
def renormKeep (m : WMap) : WMap :=
  if 0 < wsum m then m.map (fun p => (p.1, round2 (p.2 * 100 / wsum m))) else m

/-- Equal-weight dict comprehension
`{name: round(100 / len(names), 2) for name in names}`
(lines 440-441, 483-484 and 648-649). -/
def equalWeightDict (names : List String) : WMap :=
  dictOfList (names.map (fun nm => (nm, round2 (100 / (names.length : ℚ)))))

/-- Normalisation of a fund's `type` done while grouping for the
asset-split pass (lines 509-510): `taxsaver` counts as `tax_saver`. -/
def normType (ty : String) : String := if ty == "taxsaver" then "tax_saver" else ty

/-- Names of the selected funds of a given (normalised) asset type, in
fund order (the `type_weights` grouping of lines 506-513). -/
def typeFunds (selected_funds : List Fund) (t : String) : List String :=
  (selected_funds.filter (fun f => normType f.type == t)).map (fun f => f.name)

/-- Scale, in place, the weights of the listed funds that are present in
the map by the given factor (the inner loops of the passes:
`if fund_name in adjusted_weights: adjusted_weights[fund_name] *= factor`). -/
def scaleFunds (m : WMap) (fund_list : List String) (factor : ℚ) : WMap :=
  fund_list.foldl (fun acc nm =>
    if wmem acc nm then wset acc nm (wget acc nm * factor) else acc) m

/-- The adjustment loop of `apply_asset_split_constraints` (lines 520-533),
before the final renormalisation.  `current_splits` is computed once from
the input map (lines 515-518) and consulted inside the loop. -/
def assetSplitAdjust (weights_dict : WMap) (selected_funds : List Fund)
    (asset_split_targets : List (String × ℚ)) : WMap :=
  asset_split_targets.foldl (fun acc p =>
    let asset_type := p.1
    let target_pct := p.2
    if selected_funds.any (fun f => normType f.type == asset_type) then
      let fund_list := typeFunds selected_funds asset_type
      let current_total := (fund_list.map (wget weights_dict)).sum
      if fund_list.length > 0 ∧ 0 < current_total then
        scaleFunds acc fund_list (target_pct / current_total)
      else acc
    else acc) weights_dict

/-- Embedding of `apply_asset_split_constraints`
(`riskfolio_optimizer.py:503-540`). -/
def apply_asset_split_constraints (weights_dict : WMap)
    (selected_funds : List Fund)
    (asset_split_targets : List (String × ℚ)) : WMap :=
  renormKeep (assetSplitAdjust weights_dict selected_funds asset_split_targets)

/-- Names of the selected funds of a given geography, in fund order (the
`geo_weights` grouping of lines 544-550). -/
def geoFunds (selected_funds : List Fund) (g : String) : List String :=
  (selected_funds.filter (fun f => f.geography == g)).map (fun f => f.name)

/-- Step 1 of `apply_geography_constraints` (lines 563-575): for every
constrained geography with positive target whose funds carry no weight in
the ORIGINAL map, add `target / count` to each of its funds.
`current_splits` is precomputed from the input map (lines 552-555). -/
def geoSeedZero (weights_dict : WMap) (selected_funds : List Fund)
    (geography_constraints : List (String × ℚ)) : WMap :=
  geography_constraints.foldl (fun acc p =>
    let geo := p.1
    let target_pct := p.2
    if selected_funds.any (fun f => f.geography == geo) ∧ 0 < target_pct then
      let fund_list := geoFunds selected_funds geo
      let current_total := (fund_list.map (wget weights_dict)).sum
      if current_total = 0 ∧ fund_list.length > 0 then
        fund_list.foldl (fun a nm =>
          wset a nm (wget a nm + target_pct / (fund_list.length : ℚ))) acc
      else acc
    else acc) weights_dict

/-- Step 2 of `apply_geography_constraints` (lines 577-597): rescale every
constrained geography's funds to the target; current totals are
RE-computed on the running map. -/
def geoRescale (m : WMap) (selected_funds : List Fund)
    (geography_constraints : List (String × ℚ)) : WMap :=
  geography_constraints.foldl (fun acc p =>
    let geo := p.1
    let target_pct := p.2
    if selected_funds.any (fun f => f.geography == geo) then
      let fund_list := geoFunds selected_funds geo
      let current_total := (fund_list.map (wget acc)).sum
      if fund_list.length > 0 then
        if 0 < current_total then
          scaleFunds acc fund_list (target_pct / current_total)
        else
          fund_list.foldl (fun a nm =>
            wset a nm (target_pct / (fund_list.length : ℚ))) acc
      else acc
    else acc) m

/-- Step 3 of `apply_geography_constraints` (lines 599-611): for every
geography with positive target, if none of its funds carries more than
0.01, force its first fund to `max(0.1, target / count)`. -/
def geoGuaranteeMin (m : WMap) (selected_funds : List Fund)
    (geography_constraints : List (String × ℚ)) : WMap :=
  (geography_constraints.filter (fun p => 0 < p.2)).foldl (fun acc p =>
    let geo := p.1
    if selected_funds.any (fun f => f.geography == geo) then
      let fund_list := geoFunds selected_funds geo
      let has_fund := fund_list.any (fun nm => wmem acc nm && decide (1/100 < wget acc nm))
      if ¬ has_fund ∧ fund_list.length > 0 then
        match fund_list with
        | [] => acc
        | nm :: _ =>
          wset acc nm (max (1/10)
            (((geography_constraints.lookup geo).getD 0) / (fund_list.length : ℚ)))
      else acc
    else acc) m

/-- Step 4 of `apply_geography_constraints` (lines 613-640): drop every
fund with weight below 0.01 unless it is the only fund of its geography
carrying more than 0.01 (funds whose name matches no selected fund are
always dropped). -/
def geoPrune (m : WMap) (selected_funds : List Fund) : WMap :=
  let weights_to_remove := (m.filter (fun p =>
    decide (p.2 < (1/100 : ℚ)) &&
      (match selected_funds.find? (fun f => f.name == p.1) with
       | some fund =>
         selected_funds.any (fun other =>
           other.geography == fund.geography && other.name != p.1 &&
             decide ((1/100 : ℚ) < wget m other.name))
       | none => true))).map (fun p => p.1)
  weights_to_remove.foldl (fun acc nm => wdel acc nm) m

/-- Final step of `apply_geography_constraints` (lines 642-649): normalise
to 100%, falling back to equal weights over ALL selected funds when the
total is not positive. -/
def geoFinalize (m : WMap) (selected_funds : List Fund) : WMap :=
  if 0 < wsum m then m.map (fun p => (p.1, round2 (p.2 * 100 / wsum m)))
  else equalWeightDict (selected_funds.map (fun f => f.name))

/-- State of the geography pass just before its final renormalisation. -/
def geoPreFinal (weights_dict : WMap) (selected_funds : List Fund)
    (geography_constraints : List (String × ℚ)) : WMap :=
  geoPrune
    (geoGuaranteeMin
      (geoRescale (geoSeedZero weights_dict selected_funds geography_constraints)
        selected_funds geography_constraints)
      selected_funds geography_constraints)
    selected_funds

/-- Embedding of `apply_geography_constraints`
(`riskfolio_optimizer.py:542-651`). -/
def apply_geography_constraints (weights_dict : WMap)
    (selected_funds : List Fund)
    (geography_constraints : List (String × ℚ)) : WMap :=
  geoFinalize (geoPreFinal weights_dict selected_funds geography_constraints)
    selected_funds

/-- Embedding of `apply_tax_saver_constraint`
(`riskfolio_optimizer.py:653-673`).  Note the type test here is the RAW
`"taxsaver"` tag (line 655), without the normalisation of the asset-split
pass. -/
def apply_tax_saver_constraint (weights_dict : WMap)
    (selected_funds : List Fund) (tax_saver_target_pct : ℚ) : WMap :=
  let tax_saver_funds :=
    (selected_funds.filter (fun f => f.type == "taxsaver")).map (fun f => f.name)
  let current_total := (tax_saver_funds.map (wget weights_dict)).sum
  if tax_saver_funds.length > 0 ∧ 0 < current_total then
    renormKeep (scaleFunds weights_dict tax_saver_funds
      (tax_saver_target_pct / current_total))
  else weights_dict

/-- Stable insertion (descending by `returns`) used to model
`sort_values('returns', ascending=False)`.  pandas' default quicksort
leaves the order of ties unspecified; the model fixes the stable order. -/
def insertByReturnsDesc (f : Fund) : List Fund → List Fund
  | [] => [f]
  | g :: t =>
    if g.returns ≤ f.returns then f :: g :: t else g :: insertByReturnsDesc f t

/-- Model of `df.sort_values('returns', ascending=False)`. -/
def sortByReturnsDesc (l : List Fund) : List Fund := l.foldr insertByReturnsDesc []

/-- Python `int(q)`: truncation toward zero. -/
def pyTrunc (q : ℚ) : ℤ := if 0 ≤ q then ⌊q⌋ else -⌊-q⌋

/-- The `while len(selected) < count and len(category_funds) > len(selected)`
fill loop of lines 128-132, written with explicit fuel.  Each productive
iteration appends one fund, so `count` units of fuel suffice; when
`remaining` is empty but the guard still holds (possible only with
duplicate fund names) Python loops forever, which the model cuts short. -/
def fillLoop (category_funds : List Fund) (count : ℤ) :
    Nat → List Fund → List Fund
  | 0, selected => selected
  | fuel + 1, selected =>
    if (selected.length : ℤ) < count ∧ (selected.length : ℤ) < (category_funds.length : ℤ) then
      let remaining := category_funds.filter
        (fun f => ¬ (selected.map (fun s => s.name)).contains f.name)
      match sortByReturnsDesc remaining with
      | [] => selected
      | r :: _ => fillLoop category_funds count fuel (selected ++ [r])
    else selected

/-- Per-category selection of the criteria path (lines 100-139). -/
def selectForCategory (available : List Fund) (a : OptArgs)
    (category : String) (count : ℤ) : List Fund :=
  let category_funds := available.filter (fun f => f.category == category)
  if a.currency == "USD" && !a.geography_constraints.isEmpty then
    let seeded := a.geography_constraints.foldl (fun s p =>
      let geo_count := max 1 (pyTrunc ((count : ℚ) * p.2 / 100))
      let gfs := category_funds.filter (fun f => f.geography == p.1)
      if gfs.length > 0 then s ++ (sortByReturnsDesc gfs).take geo_count.toNat
      else s) []
    (fillLoop category_funds count count.toNat seeded).take count.toNat
  else
    (sortByReturnsDesc category_funds).take count.toNat

/-- Embedding of the fund-resolution logic of `risk_folio`
(lines 67-139): either look up the suggested funds by (stripped,
case-insensitively retried) name, or select per-category top funds by
`returns` from the currency- (and, for USD, geography-) filtered universe.
An empty suggested-funds dict is falsy in Python and falls through to the
criteria path. -/
def selectFunds (df : List Fund) (a : OptArgs) : List Fund :=
  match a.suggested_funds with
  | some (c0 :: crest) =>
    (c0 :: crest).foldl (fun acc cat_pair =>
      cat_pair.2.foldl (fun acc2 info =>
        match info with
        | some fund_name =>
          if fund_name.isEmpty then acc2
          else
            let clean := pyStrip fund_name
            match df.find? (fun f => pyStrip f.name == clean) with
            | some f => acc2 ++ [f]
            | none =>
              match df.find? (fun f => pyLower (pyStrip f.name) == pyLower clean) with
              | some f => acc2 ++ [f]
              | none => acc2
        | none => acc2) acc) []
  | _ =>
    let avail0 := df.filter (fun f => f.currency == a.currency)
    let available :=
      if a.currency == "USD" && !a.geography_constraints.isEmpty then
        avail0.filter (fun f =>
          (a.geography_constraints.map (fun p => p.1)).contains f.geography)
      else avail0
    a.fund_counts.foldl (fun acc p =>
      match p.2 with
      | none => acc
      | some count =>
        if 0 < count then acc ++ selectForCategory available a p.1 count
        else acc) []

/-- Python `len(base_index)` then the minimum-length scan of lines
153-159: the minimum series length over all selected funds. -/
def minSeriesLen : List Fund → Nat
  | [] => 0
  | f :: rest =>
    rest.foldl (fun m g => min m g.returns_series.len) f.returns_series.len

/-- Result of the zero-funds hard failure (lines 141-142). -/
def zeroFundsResult : Result :=
  { error := some "No funds found matching criteria" }

/-- Result of the single-fund shortcut (lines 205-215). -/
def singleFundResult (f : Fund) : Result :=
  { weights := some [(f.name, 100)], funds := some [f.name],
    model_used := some "single_fund", risk_measure := some "MV",
    error := some "Only one fund selected - cannot optimize. Using 100% allocation.",
    optimization_success := some false, total_weight := some 100 }

/-- Result of the equal-weight fallback (lines 481-501); the reported
`total_weight` is the literal 100 of line 500. -/
def fallbackResult (sel : List Fund) (msg : String) : Result :=
  { weights := some (equalWeightDict (sel.map (fun f => f.name))),
    funds := some (sel.map (fun f => f.name)),
    model_used := some "equal_weight_fallback", risk_measure := some "MV",
    error := some msg, optimization_success := some false,
    total_weight := some 100 }

/-- Lines 420-441: clamp the solver's `weights_array` to the 0.5% floor,
normalise it to sum 1, build the rounded percentage dict (guarding the
index against a short array as line 429 does), then normalise the dict to
100% with equal weights as the zero-total fallback. -/
def buildWeights (fund_names : List String) (x : List ℚ) : WMap :=
  let clamped := x.map (fun v => max v (1/200))
  let s := clamped.sum
  let weights_array := clamped.map (fun v => v / s)
  let weights_dict := dictOfList ((fund_names.zip weights_array).map
    (fun p => (p.1, round2 (max (1/200) p.2 * 100))))
  let total := wsum weights_dict
  if 0 < total then weights_dict.map (fun p => (p.1, round2 (p.2 * 100 / total)))
  else equalWeightDict fund_names

/-- Lines 445-449: the asset-split pass, applied when
`asset_split_targets` is truthy (non-empty). -/
def postAssetSplit (a : OptArgs) (sel : List Fund) (m : WMap) : WMap :=
  if a.asset_split_targets.isEmpty then m
  else apply_asset_split_constraints m sel a.asset_split_targets

/-- Lines 451-456: the geography pass, applied for USD with a truthy
`geography_constraints`. -/
def postGeography (a : OptArgs) (sel : List Fund) (m : WMap) : WMap :=
  if a.currency == "USD" && !a.geography_constraints.isEmpty then
    apply_geography_constraints m sel a.geography_constraints
  else m

/-- Lines 458-463: the tax-saver pass, applied for INR when
`tax_saver_target_pct` is truthy and positive (`some t` with `0 < t`). -/
def postTax (a : OptArgs) (sel : List Fund) (m : WMap) : WMap :=
  if a.currency == "INR" then
    match a.tax_saver_target_pct with
    | some t => if 0 < t then apply_tax_saver_constraint m sel t else m
    | none => m
  else m

/-- Lines 443-463: the three conditional constraint passes, in order. -/
def postProcess (a : OptArgs) (sel : List Fund) (m : WMap) : WMap :=
  postTax a sel (postGeography a sel (postAssetSplit a sel m))

/-- Result of the successful optimization path (lines 472-479). -/
def successResult (sel : List Fund) (model risk_measure : String)
    (w : WMap) : Result :=
  { weights := some w, funds := some (sel.map (fun f => f.name)),
    model_used := some model, risk_measure := some risk_measure,
    optimization_success := some true, total_weight := some (wsum w) }

/-- Embedding of `risk_folio` (`riskfolio_optimizer.py:21-501`).
`Except.error` models a Python exception escaping the function:
- a first selected fund whose `returns_series` is not a Series breaks at
  line 153/154 (`.index` / `len`), outside every `try`;
- any selected fund failing the `isinstance` check raises the
  `ValueError` of line 167, outside every `try`;
- with ≥ 2 funds but fewer than 2 aligned days, the shape check of line
  251 raises inside the first `try`, and the fallback DataFrame builder
  re-raises at line 272 INSIDE the `except` handler, hence uncaught.
Everything raised inside the `try` of lines 276-479 (fewer than 10 days,
a solver exception) is caught at line 481 and becomes the equal-weight
fallback result. -/
def riskFolio (df : List Fund) (a : OptArgs) (solver : SolverOutcome) :
    Except String Result :=
  match selectFunds df a with
  | [] => .ok zeroFundsResult
  | f0 :: rest =>
    match f0.returns_series with
    | .invalid _ =>
      .error "TypeError: returns_series of the first selected fund is not a pandas Series"
    | .valid _ =>
      match (f0 :: rest).find? (fun f => ! f.returns_series.isValid) with
      | some f => .error ("Fund " ++ f.name ++ " has invalid returns_series type")
      | none =>
        if (f0 :: rest).length < 2 then .ok (singleFundResult f0)
        else
          let min_length := minSeriesLen (f0 :: rest)
          if min_length < 2 then
            .error ("Cannot create valid returns DataFrame: shape (" ++
              toString min_length ++ ", " ++ toString (f0 :: rest).length ++ ")")
          else if min_length < 10 then
            .ok (fallbackResult (f0 :: rest)
              ("Insufficient historical data: " ++ toString min_length ++
                " days (need at least 10)"))
          else
            let mr := select_optimization_model a.primary_risk_bucket
              a.sub_risk_bucket a.volatility_target_pct a.drawdown_target_pct
            match solver with
            | .err msg => .ok (fallbackResult (f0 :: rest) msg)
            | .ok x =>
              .ok (successResult (f0 :: rest) mr.1 mr.2
                (postProcess a (f0 :: rest)
                  (buildWeights ((f0 :: rest).map (fun f => f.name)) x)))

/-! Concrete fixtures used by counterexample and witness theorems. -/

/-- Fixture: an INR large-cap equity fund with a valid 10-day series. -/
def fundA : Fund :=
  { name := "A", type := "equity", currency := "INR", geography := "USA",
    category := "large_cap", returns := 10,
    returns_series := RSeries.valid (List.replicate 10 (1/100)) }

/-- Fixture: a second INR large-cap equity fund with a valid 10-day series. -/
def fundB : Fund :=
  { name := "B", type := "equity", currency := "INR", geography := "India",
    category := "large_cap", returns := 9,
    returns_series := RSeries.valid (List.replicate 10 (1/100)) }

/-- Fixture: like `fundB` but its `returns_series` is not a pandas Series
(e.g. a plain list of length 10). -/
def fundBbad : Fund :=
  { name := "B", type := "equity", currency := "INR", geography := "India",
    category := "large_cap", returns := 9,
    returns_series := RSeries.invalid 10 }

/-- Fixture: a USD Japan fund with a valid 10-day series. -/
def fundC : Fund :=
  { name := "C", type := "equity", currency := "USD", geography := "Japan",
    category := "large_cap", returns := 8,
    returns_series := RSeries.valid (List.replicate 10 (1/100)) }

/-- Fixture arguments suggesting funds "A" and "B" by name. -/
def argsAB : OptArgs :=
  { currency := "INR", primary_risk_bucket := "MEDIUM",
    sub_risk_bucket := "MEDIUM_MEDIUM",
    suggested_funds := some [("large_cap", [some "A", some "B"])] }

/-- Fixture arguments suggesting funds "A" and "B" with an asset-split
target of 0% for equity. -/
def argsABZeroEquity : OptArgs :=
  { currency := "INR", primary_risk_bucket := "MEDIUM",
    sub_risk_bucket := "MEDIUM_MEDIUM",
    asset_split_targets := [("equity", 0)],
    suggested_funds := some [("large_cap", [some "A", some "B"])] }

/-- Fixture arguments suggesting only fund "A" by name. -/
def argsOnlyA : OptArgs :=
  { currency := "INR", primary_risk_bucket := "MEDIUM",
    sub_risk_bucket := "MEDIUM_MEDIUM",
    suggested_funds := some [("large_cap", [some "A"])] }

/-- Fixture arguments suggesting a name matching no fund. -/
def argsNoMatch : OptArgs :=
  { currency := "INR", primary_risk_bucket := "MEDIUM",
    sub_risk_bucket := "MEDIUM_MEDIUM",
    suggested_funds := some [("large_cap", [some "ZZZ"])] }

/-! Helper lemmas about the model selector. -/

/-- The risk-measure component of the model selector is "Variance" on
every input (every branch of lines 697-702 assigns 'Variance'). -/
theorem selectModel_snd_variance (p s : String) (v d : Option ℚ) :
    (select_optimization_model p s v d).2 = "Variance" := by
  unfold select_optimization_model
  rcases d with _ | d0 <;> rcases v with _ | v0 <;>
    simp only [Option.isSome] <;>
    split <;> (try split) <;> (try split) <;> simp

/--
C1: the §4.1 policy table claims suffix matching of the sub-risk bucket,
under which `("HIGH","HIGH_MEDIUM") ↦ max_alpha` and
`("HIGH","HIGH_LOW") ↦ max_sharpe`.  The code instead tests
`"HIGH" in sub_risk_bucket` against the whole token, so every `HIGH_*`
sub-bucket of a HIGH primary bucket yields `max_return`; the `max_alpha`
branch is unreachable for well-formed `HIGH_*` tokens, contradicting the
code's own inline comments (line 710 labels the `max_sharpe` branch
`# HIGH_LOW`).  This theorem evaluates the embedded selector on the five
pairs named by the claim, exhibiting the divergence on the second and
third. -/
theorem c1_policy_table_on_code :
    select_optimization_model "HIGH" "HIGH_HIGH" none none = ("max_return", "Variance") ∧
    select_optimization_model "HIGH" "HIGH_MEDIUM" none none = ("max_return", "Variance") ∧
    select_optimization_model "HIGH" "HIGH_LOW" none none = ("max_return", "Variance") ∧
    select_optimization_model "MEDIUM" "MEDIUM_MEDIUM" none none = ("risk_parity", "Variance") ∧
    select_optimization_model "LOW" "LOW_LOW" none none = ("min_volatility", "Variance") := by
  refine ⟨?_, ?_, ?_, ?_, ?_⟩ <;> decide

/--
C6 counterexample: for primary bucket "HIGH" and the malformed sub-risk
bucket "XYZ" (which contains none of HIGH/MEDIUM/LOW), the selector
returns `max_sharpe`, not the claimed MEDIUM/MEDIUM row `risk_parity`. -/
theorem c6_counterexample :
    select_optimization_model "HIGH" "XYZ" none none ≠ ("risk_parity", "Variance") := by
  decide

/--
C6 (amended): a malformed sub-risk bucket (containing neither "HIGH" nor
"MEDIUM" nor "LOW") falls through to the primary bucket's default row:
`max_sharpe` for HIGH, `risk_parity` for MEDIUM, `min_volatility` for any
other primary bucket; only a MEDIUM primary bucket yields `risk_parity`. -/
theorem c6_malformed_default (p s : String) (v d : Option ℚ)
    (h1 : pyIn "HIGH" s = false) (h2 : pyIn "MEDIUM" s = false)
    (h3 : pyIn "LOW" s = false) :
    select_optimization_model p s v d =
      ((if p == "HIGH" then "max_sharpe"
        else if p == "MEDIUM" then "risk_parity"
        else "min_volatility"), "Variance") := by
  have hrm := selectModel_snd_variance p s v d
  unfold select_optimization_model at hrm ⊢
  simp only [h1, h2, Bool.false_eq_true, if_false] at hrm ⊢
  split <;> (try split) <;> (try split) <;> (try split) <;> rfl

/-- Witness for C6 (amended), at primary "MEDIUM" and sub "XYZ". -/
theorem c6_malformed_default_witness :
    pyIn "HIGH" "XYZ" = false ∧ pyIn "MEDIUM" "XYZ" = false ∧
    pyIn "LOW" "XYZ" = false ∧
    select_optimization_model "MEDIUM" "XYZ" none none = ("risk_parity", "Variance") := by
  refine ⟨by decide, by decide, by decide, ?_⟩
  have h := c6_malformed_default "MEDIUM" "XYZ" none none
    (by decide) (by decide) (by decide)
  simpa using h

/-- All values of the weights map are nonnegative. -/
def WNonneg (m : WMap) : Prop := ∀ p ∈ m, 0 ≤ p.2

/-- The sum invariant as it actually holds on the code: either the sum of
weights deviates from 100 by at most `0.005` per entry, or the map was
zeroed out by a renormalisation whose total was 0 (the asset-split pass's
zero-total escape). -/
def SumOk (m : WMap) : Prop :=
  |wsum m - 100| ≤ (m.length : ℚ) / 200 ∨ ∀ p ∈ m, p.2 = 0

/-! Toolkit lemmas about the dict operations. -/

theorem lookup_of_wmem_false {m : WMap} {k : String} (h : wmem m k = false) :
    m.lookup k = none := by
  induction m with
  | nil => rfl
  | cons p t ih =>
    simp only [wmem, List.any_cons, Bool.or_eq_false_iff] at h
    have h2 : (k == p.1) = false := by
      cases hkp : (k == p.1) with
      | false => rfl
      | true =>
        have := BEq.symm hkp
        simp [this] at h
    simpa [List.lookup, h2] using ih (by simp [wmem, h.2])

theorem wmem_of_lookup_some {m : WMap} {k : String} {v : ℚ}
    (h : m.lookup k = some v) : wmem m k = true := by
  cases hm : wmem m k with
  | true => rfl
  | false => rw [lookup_of_wmem_false hm] at h; cases h

theorem lookup_map_update_self (m : WMap) (k : String) (v : ℚ)
    (hm : wmem m k = true) :
    (m.map (fun p => bif p.1 == k then (p.1, v) else p)).lookup k = some v := by
  induction m with
  | nil => simp [wmem] at hm
  | cons p t ih =>
    cases hpk : (p.1 == k) with
    | true =>
      have hk : p.1 = k := by simpa using hpk
      simp [List.lookup, hpk, hk]
    | false =>
      have h2 : (k == p.1) = false := by
        cases h3 : (k == p.1) with
        | false => rfl
        | true => rw [BEq.symm h3] at hpk; cases hpk
      have hm' : wmem t k = true := by simpa [wmem, List.any_cons, hpk] using hm
      simp [List.lookup, hpk, h2, ih hm']

theorem lookup_map_update_other (m : WMap) (k k' : String) (v : ℚ)
    (h : k' ≠ k) :
    (m.map (fun p => bif p.1 == k then (p.1, v) else p)).lookup k' =
      m.lookup k' := by
  induction m with
  | nil => rfl
  | cons p t ih =>
    cases hpk : (p.1 == k) with
    | true =>
      have hk : p.1 = k := by simpa using hpk
      have hk' : (k' == p.1) = false := by simp [hk, h]
      simp [List.lookup, hpk, hk', ih]
    | false =>
      by_cases hk2 : k' = p.1 <;> simp [List.lookup, hpk, hk2, ih]

theorem lookup_append_single_self (m : WMap) (k : String) (v : ℚ)
    (hm : wmem m k = false) : (m ++ [(k, v)]).lookup k = some v := by
  induction m with
  | nil => simp [List.lookup]
  | cons p t ih =>
    simp only [wmem, List.any_cons, Bool.or_eq_false_iff] at hm
    have h2 : (k == p.1) = false := by
      cases hkp : (k == p.1) with
      | false => rfl
      | true =>
        have := BEq.symm hkp
        simp [this] at hm
    simpa [List.lookup, h2] using ih (by simp [wmem, hm.2])

theorem lookup_append_single_other (m : WMap) (k k' : String) (v : ℚ)
    (h : k' ≠ k) : (m ++ [(k, v)]).lookup k' = m.lookup k' := by
  induction m with
  | nil => simp [List.lookup, show (k' == k) = false by simp [h]]
  | cons p t ih => by_cases hk : k' = p.1 <;> simp [List.lookup, hk, ih]

theorem lookup_wset_self (m : WMap) (k : String) (v : ℚ) :
    (wset m k v).lookup k = some v := by
  unfold wset
  cases hm : wmem m k with
  | true => simpa [hm] using lookup_map_update_self m k v hm
  | false => simpa [hm] using lookup_append_single_self m k v hm

theorem lookup_wset_other (m : WMap) (k k' : String) (v : ℚ) (h : k' ≠ k) :
    (wset m k v).lookup k' = m.lookup k' := by
  unfold wset
  cases hm : wmem m k with
  | true => simpa using lookup_map_update_other m k k' v h
  | false => simpa using lookup_append_single_other m k k' v h

theorem keys_wset_of_mem {m : WMap} {k : String} (v : ℚ)
    (h : wmem m k = true) :
    (wset m k v).map (fun p => p.1) = m.map (fun p => p.1) := by
  unfold wset
  rw [h]
  simp only [Bool.cond_true, List.map_map]
  refine List.map_congr_left (fun p _ => ?_)
  cases hpk : (p.1 == k) with
  | true =>
    have hk : p.1 = k := by simpa using hpk
    simp [Function.comp, hpk, hk]
  | false => simp [Function.comp, hpk]

theorem lookup_mapValues (m : WMap) (g : ℚ → ℚ) (k : String) :
    (m.map (fun p => (p.1, g p.2))).lookup k = (m.lookup k).map g := by
  induction m with
  | nil => rfl
  | cons p t ih =>
    by_cases hk : k = p.1
    · simp [List.lookup, hk, ih]
    · have hb : (k == p.1) = false := by simp [hk]
      simp [List.lookup, hb, ih]

theorem keys_mapValues (m : WMap) (g : ℚ → ℚ) :
    (m.map (fun p => (p.1, g p.2))).map (fun p => p.1) = m.map (fun p => p.1) := by
  rw [List.map_map]; rfl

/-- Values of the map after a value-wise map. -/
theorem values_mapValues (m : WMap) (g : ℚ → ℚ) :
    (m.map (fun p => (p.1, g p.2))).map (fun p => p.2) =
      (m.map (fun p => p.2)).map g := by
  rw [List.map_map, List.map_map]; rfl

/-- Generic preservation through a left fold. -/
theorem foldl_preserve {α β : Type} (P : β → Prop) (step : β → α → β)
    (L : List α) (hstep : ∀ acc y, y ∈ L → P acc → P (step acc y)) :
    ∀ acc, P acc → P (L.foldl step acc) := by
  induction L with
  | nil => intro acc h; exact h
  | cons a t ih =>
    intro acc h
    exact ih (fun acc' y hy => hstep acc' y (List.mem_cons_of_mem a hy))
      (step acc a) (hstep acc a (List.mem_cons_self a t) h)

/-- Generic establish-then-preserve through a left fold. -/
theorem foldl_establish {α β : Type} (P : β → Prop) (step : β → α → β)
    (L : List α) (x : α) (hx : x ∈ L)
    (hEst : ∀ acc, P (step acc x))
    (hPres : ∀ acc y, y ∈ L → P acc → P (step acc y)) :
    ∀ acc, P (L.foldl step acc) := by
  induction L with
  | nil => cases hx
  | cons a t ih =>
    intro acc
    rcases List.mem_cons.mp hx with hax | hx'
    · refine foldl_preserve P step t
        (fun acc' y hy => hPres acc' y (List.mem_cons_of_mem a hy))
        (step acc a) ?_
      rw [← hax]
      exact hEst acc
    · exact ih hx'
        (fun acc' y hy => hPres acc' y (List.mem_cons_of_mem a hy)) (step acc a)

/-! Rounding and sum lemmas. -/

theorem abs_round2_sub (x : ℚ) : |round2 x - x| ≤ 1 / 200 := by
  have h := abs_sub_round (x * 100)
  rw [abs_sub_comm] at h
  unfold round2
  have hx : ((round (x * 100) : ℤ) : ℚ) / 100 - x =
      (((round (x * 100) : ℤ) : ℚ) - x * 100) / 100 := by ring
  rw [hx, abs_div]
  have h100 : |(100 : ℚ)| = 100 := by norm_num
  rw [h100]
  linarith

theorem round2_nonneg {x : ℚ} (h : 0 ≤ x) : 0 ≤ round2 x := by
  unfold round2
  have : (0 : ℤ) ≤ round (x * 100) := by
    rw [round_eq]
    exact Int.le_floor.mpr (by push_cast; linarith)
  positivity

theorem round2_pos {x : ℚ} (h : 1 / 200 ≤ x) : 0 < round2 x := by
  unfold round2
  have h1 : (1 : ℤ) ≤ round (x * 100) := by
    rw [round_eq]
    exact Int.le_floor.mpr (by push_cast; linarith)
  have : (1 : ℚ) ≤ ((round (x * 100) : ℤ) : ℚ) := by exact_mod_cast h1
  linarith

theorem round2_zero : round2 0 = 0 := by
  unfold round2
  norm_num

theorem sum_map_round2_bound (l : List ℚ) :
    |(l.map round2).sum - l.sum| ≤ (l.length : ℚ) / 200 := by
  induction l with
  | nil => simp
  | cons a t ih =>
    simp only [List.map_cons, List.sum_cons, List.length_cons]
    have h1 := abs_round2_sub a
    have h2 : |round2 a + (t.map round2).sum - (a + t.sum)| ≤
        |round2 a - a| + |(t.map round2).sum - t.sum| := by
      have := abs_add (round2 a - a) ((t.map round2).sum - t.sum)
      have he : round2 a + (t.map round2).sum - (a + t.sum) =
          (round2 a - a) + ((t.map round2).sum - t.sum) := by ring
      rw [he]
      exact this
    have h3 : ((t.length + 1 : ℕ) : ℚ) / 200 = (t.length : ℚ) / 200 + 1 / 200 := by
      push_cast
      ring
    rw [h3]
    linarith

theorem sum_map_mul_const (l : List ℚ) (c : ℚ) :
    (l.map (fun v => v * c)).sum = l.sum * c := by
  induction l with
  | nil => simp
  | cons a t ih => simp [ih]; ring

theorem all_zero_of_nonneg_sum_nonpos (l : List ℚ)
    (h : ∀ v ∈ l, 0 ≤ v) (hs : l.sum ≤ 0) : ∀ v ∈ l, v = 0 := by
  induction l with
  | nil => intro v hv; cases hv
  | cons a t ih =>
    have ha : 0 ≤ a := h a (List.mem_cons_self a t)
    have hts : 0 ≤ t.sum := List.sum_nonneg (fun v hv => h v (List.mem_cons_of_mem a hv))
    simp only [List.sum_cons] at hs
    intro v hv
    rcases List.mem_cons.mp hv with rfl | hv'
    · linarith
    · exact ih (fun w hw => h w (List.mem_cons_of_mem a hw)) (by linarith) v hv'

/-- Normalising a positive-total map to 100% and rounding puts its sum
within `length / 200` of 100. -/
theorem wsum_renorm_bound (m : WMap) (h : 0 < wsum m) :
    |wsum (m.map (fun p => (p.1, round2 (p.2 * 100 / wsum m)))) - 100| ≤
      (m.length : ℚ) / 200 := by
  set t := wsum m with ht
  have hv : wsum (m.map (fun p => (p.1, round2 (p.2 * 100 / t)))) =
      (((m.map (fun p => p.2)).map (fun v => v * (100 / t))).map round2).sum := by
    rw [wsum]
    simp only [List.map_map]
    congr 1
    refine List.map_congr_left (fun p _ => ?_)
    simp only [Function.comp]
    rw [mul_div_assoc]
  rw [hv]
  have hsum : ((m.map (fun p => p.2)).map (fun v => v * (100 / t))).sum = 100 := by
    rw [sum_map_mul_const]
    have htne : t ≠ 0 := ne_of_gt h
    rw [wsum] at ht
    rw [← ht]
    field_simp
  have hlen : (((m.map (fun p => p.2)).map (fun v => v * (100 / t))).length : ℚ) =
      (m.length : ℚ) := by simp
  have hb := sum_map_round2_bound ((m.map (fun p => p.2)).map (fun v => v * (100 / t)))
  rw [hsum, hlen] at hb
  exact hb

/--
C9: applying the passes' final renormalisation (multiply each value by
`100 / total`, round to 2 decimals, guarded by `total > 0`) to a map whose
values already sum to exactly 100 and are already rounded to 2 decimals is
a no-op, hence applying it twice equals applying it once; the same holds
for the geography pass's final step (which differs only in its zero-total
fallback, not taken here). -/
theorem c9_renorm_idempotent (m : WMap) (hsum : wsum m = 100)
    (hround : ∀ p ∈ m, round2 p.2 = p.2) :
    renormKeep m = m ∧ renormKeep (renormKeep m) = renormKeep m ∧
      ∀ sel : List Fund, geoFinalize m sel = m := by
  have hid : m.map (fun p => (p.1, round2 (p.2 * 100 / wsum m))) = m := by
    have : ∀ p ∈ m, (p.1, round2 (p.2 * 100 / wsum m)) = p := by
      intro p hp
      have hdiv : p.2 * 100 / wsum m = p.2 := by
        rw [hsum]
        field_simp
      rw [hdiv, hround p hp]
    calc m.map (fun p => (p.1, round2 (p.2 * 100 / wsum m)))
        = m.map id := List.map_congr_left this
      _ = m := List.map_id m
  have hpos : 0 < wsum m := by rw [hsum]; norm_num
  have h1 : renormKeep m = m := by
    unfold renormKeep
    rw [if_pos hpos]
    exact hid
  refine ⟨h1, by rw [h1]; exact h1, fun sel => ?_⟩
  unfold geoFinalize
  rw [if_pos hpos]
  exact hid

/-- Witness for C9 on the concrete map `{"A": 60, "B": 40}`. -/
theorem c9_renorm_idempotent_witness :
    wsum [("A", (60 : ℚ)), ("B", 40)] = 100 ∧
      renormKeep [("A", (60 : ℚ)), ("B", 40)] = [("A", 60), ("B", 40)] := by
  have hsum : wsum [("A", (60 : ℚ)), ("B", 40)] = 100 := by norm_num [wsum]
  have hround : ∀ p ∈ [("A", (60 : ℚ)), ("B", 40)], round2 p.2 = p.2 := by
    intro p hp
    fin_cases hp <;> norm_num [round2, round_eq]
  exact ⟨hsum, (c9_renorm_idempotent [("A", 60), ("B", 40)] hsum hround).1⟩

/-! Frame lemmas for the asset-split pass (claim C10). -/

theorem keys_scaleStep (m : WMap) (nm : String) (f : ℚ) :
    ((if wmem m nm then wset m nm (wget m nm * f) else m)).map (fun p => p.1) =
      m.map (fun p => p.1) := by
  split
  · exact keys_wset_of_mem _ (by assumption)
  · rfl

theorem keys_scaleFunds (m : WMap) (L : List String) (f : ℚ) :
    (scaleFunds m L f).map (fun p => p.1) = m.map (fun p => p.1) := by
  unfold scaleFunds
  refine foldl_preserve (fun acc => acc.map (fun p => p.1) = m.map (fun p => p.1))
    _ L (fun acc nm _ h => ?_) m rfl
  rw [← h]
  exact keys_scaleStep acc nm f

theorem keys_renormKeep (m : WMap) :
    (renormKeep m).map (fun p => p.1) = m.map (fun p => p.1) := by
  unfold renormKeep
  split
  · exact keys_mapValues m (fun v => round2 (v * 100 / wsum m))
  · rfl

theorem keys_assetSplitAdjust (m : WMap) (sel : List Fund)
    (ts : List (String × ℚ)) :
    (assetSplitAdjust m sel ts).map (fun p => p.1) = m.map (fun p => p.1) := by
  unfold assetSplitAdjust
  refine foldl_preserve (fun acc => acc.map (fun p => p.1) = m.map (fun p => p.1))
    _ ts (fun acc p _ h => ?_) m rfl
  dsimp only
  split
  · split
    · rw [keys_scaleFunds]
      exact h
    · exact h
  · exact h

theorem lookup_zero_wmem_step (k : String) (m : WMap) (nm : String) (f : ℚ)
    (h : m.lookup k = some 0) :
    ((if wmem m nm then wset m nm (wget m nm * f) else m)).lookup k = some 0 := by
  split
  · by_cases hk : k = nm
    · subst hk
      have hg : wget m k = 0 := by rw [wget, h]; rfl
      rw [hg, zero_mul, lookup_wset_self]
    · rw [lookup_wset_other _ _ _ _ hk]
      exact h
  · exact h

theorem lookup_zero_scaleFunds (k : String) (m : WMap) (L : List String) (f : ℚ)
    (h : m.lookup k = some 0) : (scaleFunds m L f).lookup k = some 0 := by
  unfold scaleFunds
  exact foldl_preserve (fun acc => acc.lookup k = some 0) _ L
    (fun acc nm _ hacc => lookup_zero_wmem_step k acc nm f hacc) m h

theorem lookup_zero_renormKeep (k : String) (m : WMap)
    (h : m.lookup k = some 0) : (renormKeep m).lookup k = some 0 := by
  unfold renormKeep
  split
  · rw [lookup_mapValues m (fun v => round2 (v * 100 / wsum m)) k, h]
    simp [round2_zero]
  · exact h

theorem lookup_zero_assetSplitAdjust (k : String) (m : WMap) (sel : List Fund)
    (ts : List (String × ℚ)) (h : m.lookup k = some 0) :
    (assetSplitAdjust m sel ts).lookup k = some 0 := by
  unfold assetSplitAdjust
  refine foldl_preserve (fun acc => acc.lookup k = some 0) _ ts
    (fun acc p _ hacc => ?_) m h
  dsimp only
  split
  · split
    · exact lookup_zero_scaleFunds k acc _ _ hacc
    · exact hacc
  · exact hacc

theorem wmem_eq_keys_any (m : WMap) (k : String) :
    wmem m k = (m.map (fun p => p.1)).any (fun s => s == k) := by
  rw [wmem]
  induction m with
  | nil => rfl
  | cons p t ih => simp [List.any_cons, ih]

theorem lookup_some_of_wmem {m : WMap} {k : String} (h : wmem m k = true) :
    ∃ v, m.lookup k = some v := by
  cases hl : m.lookup k with
  | some v => exact ⟨v, rfl⟩
  | none =>
    induction m with
    | nil => simp [wmem] at h
    | cons p t ih =>
      cases hpk : (k == p.1) with
      | true => simp [List.lookup, hpk] at hl
      | false =>
        have hpk' : (p.1 == k) = false := by
          cases h3 : (p.1 == k) with
          | false => rfl
          | true => rw [BEq.symm h3] at hpk; cases hpk
        have ht : wmem t k = true := by simpa [wmem, List.any_cons, hpk'] using h
        have hlt : t.lookup k = none := by simpa [List.lookup, hpk] using hl
        exact ih ht hlt

/--
C10: the asset-split pass is a frame transformation on the weights map:
it returns exactly the input's key list (no fund is added or removed), a
fund absent from the input stays absent, and a fund at weight 0 stays at
weight 0 — so, unlike the geography pass, this pass can never inject
allocation into a fund the solver left at zero. -/
theorem c10_asset_split_frame (m : WMap) (sel : List Fund)
    (ts : List (String × ℚ)) :
    (apply_asset_split_constraints m sel ts).map (fun p => p.1) =
        m.map (fun p => p.1) ∧
      (∀ k, m.lookup k = none →
        (apply_asset_split_constraints m sel ts).lookup k = none) ∧
      (∀ k, m.lookup k = some 0 →
        (apply_asset_split_constraints m sel ts).lookup k = some 0) := by
  have hkeys : (apply_asset_split_constraints m sel ts).map (fun p => p.1) =
      m.map (fun p => p.1) := by
    unfold apply_asset_split_constraints
    rw [keys_renormKeep, keys_assetSplitAdjust]
  refine ⟨hkeys, fun k hk => ?_, fun k hk =>
    lookup_zero_renormKeep k _ (lookup_zero_assetSplitAdjust k m sel ts hk)⟩
  cases hl : (apply_asset_split_constraints m sel ts).lookup k with
  | none => rfl
  | some v =>
    have hw := wmem_of_lookup_some hl
    rw [wmem_eq_keys_any, hkeys, ← wmem_eq_keys_any] at hw
    obtain ⟨w, hww⟩ := lookup_some_of_wmem hw
    rw [hww] at hk
    cases hk

/-!
Claims C8 and C7: zero-fund hard failure and single-fund shortcut.
-/

/--
C8: whenever the selection criteria resolve zero funds, `risk_folio`
returns the dict `{"error": "No funds found matching criteria"}` — the
error message is exactly that string and no weights map is present. -/
theorem c8_zero_funds (df : List Fund) (a : OptArgs) (solver : SolverOutcome)
    (h : selectFunds df a = []) :
    riskFolio df a solver = .ok zeroFundsResult ∧
      zeroFundsResult.error = some "No funds found matching criteria" ∧
      zeroFundsResult.weights = none := by
  refine ⟨?_, rfl, rfl⟩
  unfold riskFolio
  rw [h]

/-- Witness for C8: the suggested name "ZZZ" matches no fund. -/
theorem c8_zero_funds_witness :
    selectFunds [fundA, fundB] argsNoMatch = [] ∧
      riskFolio [fundA, fundB] argsNoMatch (SolverOutcome.ok [1/2, 1/2]) =
        .ok zeroFundsResult := by
  have h : selectFunds [fundA, fundB] argsNoMatch = [] := by rfl
  exact ⟨h, (c8_zero_funds [fundA, fundB] argsNoMatch
    (SolverOutcome.ok [1/2, 1/2]) h).1⟩

/--
C7: whenever exactly one fund (with a genuine Series) is resolved,
`risk_folio` skips optimization and returns 100% on that fund, with
`optimization_success = false` and the explanatory message of line 212. -/
theorem c7_single_fund (df : List Fund) (a : OptArgs) (solver : SolverOutcome)
    (f : Fund) (vals : List ℚ) (h : selectFunds df a = [f])
    (hv : f.returns_series = RSeries.valid vals) :
    riskFolio df a solver = .ok (singleFundResult f) ∧
      (singleFundResult f).weights = some [(f.name, 100)] ∧
      (singleFundResult f).optimization_success = some false ∧
      (singleFundResult f).error =
        some "Only one fund selected - cannot optimize. Using 100% allocation." := by
  refine ⟨?_, rfl, rfl, rfl⟩
  unfold riskFolio
  simp [h, hv, List.find?, RSeries.isValid]

/-- Witness for C7: only fund "A" is suggested. -/
theorem c7_single_fund_witness :
    selectFunds [fundA, fundB] argsOnlyA = [fundA] ∧
      riskFolio [fundA, fundB] argsOnlyA (SolverOutcome.ok [1/2, 1/2]) =
        .ok (singleFundResult fundA) := by
  have h : selectFunds [fundA, fundB] argsOnlyA = [fundA] := by rfl
  exact ⟨h, (c7_single_fund [fundA, fundB] argsOnlyA (SolverOutcome.ok [1/2, 1/2])
    fundA (List.replicate 10 (1/100)) h rfl).1⟩

/-!
Claim C2: the error-handling boundary of `risk_folio`.
-/

/--
C2 counterexample: the claim that no exception propagates past
`risk_folio` is false.  With funds "A" (valid series) and "B" whose
`returns_series` is a plain list, the `raise ValueError` of line 167 —
which sits outside every `try` block — escapes the function: the model
returns `Except.error`, i.e. the caller sees an unhandled `ValueError`,
not a result dict. -/
theorem c2_counterexample :
    riskFolio [fundA, fundBbad] argsAB (SolverOutcome.ok [1/2, 1/2]) =
      .error "Fund B has invalid returns_series type" := by
  rfl

/--
C2 (amended): `risk_folio` returns a well-formed result dict (with a
weights map or an error field) for every input in which (a) every
selected fund's `returns_series` is a genuine Series and (b) either at
most one fund is selected or the minimum series length is at least 2.
Outside these conditions an exception escapes: the line-167 `ValueError`
for a non-Series `returns_series`, and the line-272 `ValueError`
(re-raised inside the `except` handler) when ≥ 2 funds have fewer than 2
aligned days. -/
theorem c2_no_escape (df : List Fund) (a : OptArgs) (solver : SolverOutcome)
    (hser : ∀ f ∈ selectFunds df a, f.returns_series.isValid = true)
    (hlen : (selectFunds df a).length ≤ 1 ∨ 2 ≤ minSeriesLen (selectFunds df a)) :
    ∃ res, riskFolio df a solver = .ok res ∧
      (res.weights.isSome ∨ res.error.isSome) := by
  cases hsel : selectFunds df a with
  | nil =>
    refine ⟨zeroFundsResult, ?_, Or.inr rfl⟩
    unfold riskFolio
    rw [hsel]
  | cons f0 rest =>
    have hf0 : f0.returns_series.isValid = true :=
      hser f0 (by rw [hsel]; exact List.mem_cons_self f0 rest)
    obtain ⟨vals, hv⟩ : ∃ vals, f0.returns_series = RSeries.valid vals := by
      cases hs : f0.returns_series with
      | valid vals => exact ⟨vals, rfl⟩
      | invalid n => rw [hs] at hf0; simp [RSeries.isValid] at hf0
    have hfind : (f0 :: rest).find? (fun g => ! g.returns_series.isValid) = none := by
      rw [List.find?_eq_none]
      intro g hg
      have hgv := hser g (by rw [hsel]; exact hg)
      simp [hgv]
    by_cases hl : (f0 :: rest).length < 2
    · have hrest : rest = [] := by
        cases rest with
        | nil => rfl
        | cons b bs =>
          simp only [List.length_cons] at hl
          exact absurd hl (by omega)
      subst hrest
      refine ⟨singleFundResult f0, ?_, Or.inl rfl⟩
      unfold riskFolio
      rw [hsel]
      simp [hv, hfind]
    · have hmin : 2 ≤ minSeriesLen (f0 :: rest) := by
        rcases hlen with h1 | h1
        · rw [hsel] at h1
          exact absurd h1 (by omega)
        · rw [hsel] at h1
          exact h1
      have hm2 : ¬ minSeriesLen (f0 :: rest) < 2 := by omega
      by_cases hm10 : minSeriesLen (f0 :: rest) < 10
      · refine ⟨fallbackResult (f0 :: rest)
            ("Insufficient historical data: " ++ toString (minSeriesLen (f0 :: rest)) ++
              " days (need at least 10)"), ?_, Or.inl rfl⟩
        unfold riskFolio
        rw [hsel]
        simp only [hv, hfind]
        rw [if_neg hl, if_neg hm2, if_pos hm10]
      · cases solver with
        | err msg =>
          refine ⟨fallbackResult (f0 :: rest) msg, ?_, Or.inl rfl⟩
          unfold riskFolio
          rw [hsel]
          simp only [hv, hfind]
          rw [if_neg hl, if_neg hm2, if_neg hm10]
        | ok x =>
          refine ⟨successResult (f0 :: rest)
              (select_optimization_model a.primary_risk_bucket a.sub_risk_bucket
                a.volatility_target_pct a.drawdown_target_pct).1
              (select_optimization_model a.primary_risk_bucket a.sub_risk_bucket
                a.volatility_target_pct a.drawdown_target_pct).2
              (postProcess a (f0 :: rest)
                (buildWeights ((f0 :: rest).map (fun f => f.name)) x)), ?_, Or.inl rfl⟩
          unfold riskFolio
          rw [hsel]
          simp only [hv, hfind]
          rw [if_neg hl, if_neg hm2, if_neg hm10]

/-- Witness for C2 (amended): both suggested funds carry valid 10-day
series, so the optimizer returns a well-formed result. -/
theorem c2_no_escape_witness :
    (∀ f ∈ selectFunds [fundA, fundB] argsAB, f.returns_series.isValid = true) ∧
      2 ≤ minSeriesLen (selectFunds [fundA, fundB] argsAB) ∧
      ∃ res, riskFolio [fundA, fundB] argsAB (SolverOutcome.ok [1/2, 1/2]) = .ok res ∧
        (res.weights.isSome ∨ res.error.isSome) :=
  ⟨by decide, by decide,
    c2_no_escape [fundA, fundB] argsAB (SolverOutcome.ok [1/2, 1/2])
      (by decide) (Or.inr (by decide))⟩

/-!
Claim C5: the `riskMeasure` field of results.
-/

/--
C5 counterexample: the single-fund shortcut (line 211) returns
`risk_measure = "MV"`, not "Variance", so the claim that every result's
risk measure equals "Variance" is false on the concrete single-fund run
below. -/
theorem c5_counterexample :
    riskFolio [fundA, fundB] argsOnlyA (SolverOutcome.ok [1/2, 1/2]) =
        .ok (singleFundResult fundA) ∧
      (singleFundResult fundA).weights.isSome = true ∧
      (singleFundResult fundA).risk_measure = some "MV" ∧
      some "MV" ≠ some "Variance" := by
  refine ⟨rfl, rfl, rfl, by decide⟩

/--
C5 (amended): for every result carrying a weights map, the
`risk_measure` field is "Variance" exactly on the successful optimization
path (`optimization_success = true`, via `select_optimization_model`
whose risk-measure component is always 'Variance'), and the literal "MV"
on the single-fund shortcut and equal-weight fallback paths
(`optimization_success = false`, lines 211 and 497). -/
theorem c5_risk_measure (df : List Fund) (a : OptArgs) (solver : SolverOutcome)
    (r : Result) (hr : riskFolio df a solver = .ok r)
    (hw : r.weights.isSome = true) :
    r.risk_measure =
      some (if r.optimization_success = some true then "Variance" else "MV") := by
  cases hsel : selectFunds df a with
  | nil =>
    unfold riskFolio at hr
    rw [hsel] at hr
    injection hr with hr'
    rw [← hr'] at hw
    simp [zeroFundsResult] at hw
  | cons f0 rest =>
    unfold riskFolio at hr
    rw [hsel] at hr
    cases hv : f0.returns_series with
    | invalid n =>
      simp only [hv] at hr
      exact Except.noConfusion hr
    | valid vals =>
      cases hfind : (f0 :: rest).find? (fun g => ! g.returns_series.isValid) with
      | some g =>
        simp only [hv, hfind] at hr
        exact Except.noConfusion hr
      | none =>
        simp only [hv, hfind] at hr
        by_cases hl : (f0 :: rest).length < 2
        · rw [if_pos hl] at hr
          injection hr with hr'
          rw [← hr']
          rfl
        · rw [if_neg hl] at hr
          by_cases hm2 : minSeriesLen (f0 :: rest) < 2
          · rw [if_pos hm2] at hr
            exact Except.noConfusion hr
          · rw [if_neg hm2] at hr
            by_cases hm10 : minSeriesLen (f0 :: rest) < 10
            · rw [if_pos hm10] at hr
              injection hr with hr'
              rw [← hr']
              rfl
            · rw [if_neg hm10] at hr
              cases solver with
              | err msg =>
                injection hr with hr'
                rw [← hr']
                rfl
              | ok x =>
                injection hr with hr'
                rw [← hr']
                have hvar := selectModel_snd_variance a.primary_risk_bucket
                  a.sub_risk_bucket a.volatility_target_pct a.drawdown_target_pct
                simp [successResult, hvar]

/-- Witness for C5 (amended) on the single-fund shortcut result. -/
theorem c5_risk_measure_witness :
    riskFolio [fundA, fundB] argsOnlyA (SolverOutcome.ok [1/2, 1/2]) =
        .ok (singleFundResult fundA) ∧
      (singleFundResult fundA).weights.isSome = true ∧
      (singleFundResult fundA).risk_measure =
        some (if (singleFundResult fundA).optimization_success = some true
          then "Variance" else "MV") :=
  ⟨rfl, rfl, c5_risk_measure [fundA, fundB] argsOnlyA
    (SolverOutcome.ok [1/2, 1/2]) (singleFundResult fundA) rfl rfl⟩

/-!
Claim C3: the sum invariant, stagewise.
-/

theorem mem_of_lookup_eq_some {m : WMap} {k : String} {v : ℚ}
    (h : m.lookup k = some v) : (k, v) ∈ m := by
  induction m with
  | nil => cases h
  | cons p t ih =>
    cases hk : (k == p.1) with
    | true =>
      have hk' : k = p.1 := by simpa using hk
      have hv : p.2 = v := by simpa [List.lookup, hk] using h
      rw [hk', ← hv]
      exact List.mem_cons_self p t
    | false =>
      have ht : t.lookup k = some v := by simpa [List.lookup, hk] using h
      exact List.mem_cons_of_mem p (ih ht)

theorem wget_nonneg {m : WMap} (hN : WNonneg m) (k : String) : 0 ≤ wget m k := by
  unfold wget
  cases hl : m.lookup k with
  | none => simp
  | some v => simpa using hN (k, v) (mem_of_lookup_eq_some hl)

theorem wnonneg_wset {m : WMap} {v : ℚ} (hN : WNonneg m) (k : String)
    (hv : 0 ≤ v) : WNonneg (wset m k v) := by
  unfold wset
  cases hm : wmem m k with
  | true =>
    simp only [Bool.cond_true]
    intro q hq
    obtain ⟨p, hp, hpq⟩ := List.mem_map.mp hq
    cases hpk : (p.1 == k) with
    | true => rw [hpk] at hpq; simp only [Bool.cond_true] at hpq; rw [← hpq]; exact hv
    | false => rw [hpk] at hpq; simp only [Bool.cond_false] at hpq; rw [← hpq]; exact hN p hp
  | false =>
    simp only [Bool.cond_false]
    intro q hq
    rcases List.mem_append.mp hq with h1 | h1
    · exact hN q h1
    · simp only [List.mem_singleton] at h1
      rw [h1]
      exact hv

theorem wnonneg_scaleFunds {m : WMap} {factor : ℚ} (hN : WNonneg m)
    (L : List String) (hf : 0 ≤ factor) : WNonneg (scaleFunds m L factor) := by
  unfold scaleFunds
  refine foldl_preserve WNonneg _ L (fun acc nm _ hacc => ?_) m hN
  split
  · exact wnonneg_wset hacc nm (mul_nonneg (wget_nonneg hacc nm) hf)
  · exact hacc

theorem wset_of_wmem_false {m : WMap} {k : String} (v : ℚ)
    (h : wmem m k = false) : wset m k v = m ++ [(k, v)] := by
  unfold wset
  rw [h]
  rfl

theorem wmem_append (m₁ m₂ : WMap) (k : String) :
    wmem (m₁ ++ m₂) k = (wmem m₁ k || wmem m₂ k) := by
  unfold wmem
  exact List.any_append

theorem dictOfList_aux_eq (l : List (String × ℚ)) :
    ∀ acc : WMap, (l.map (fun p => p.1)).Nodup →
      (∀ k, k ∈ l.map (fun p => p.1) → wmem acc k = false) →
      l.foldl (fun acc p => wset acc p.1 p.2) acc = acc ++ l := by
  induction l with
  | nil => intro acc _ _; simp
  | cons p t ih =>
    intro acc hnd hdisj
    simp only [List.map_cons, List.nodup_cons] at hnd
    have hp : wmem acc p.1 = false :=
      hdisj p.1 (by simp)
    rw [List.foldl_cons, wset_of_wmem_false p.2 hp]
    have hdisj' : ∀ k, k ∈ t.map (fun p => p.1) → wmem (acc ++ [(p.1, p.2)]) k = false := by
      intro k hk
      rw [wmem_append]
      have h1 : wmem acc k = false := hdisj k (by simp [hk])
      have h2 : wmem [(p.1, p.2)] k = false := by
        have : p.1 ≠ k := fun he => hnd.1 (he ▸ hk)
        simp [wmem, this]
      rw [h1, h2]
      rfl
    rw [ih (acc ++ [(p.1, p.2)]) hnd.2 hdisj']
    simp

theorem dictOfList_eq_self (l : List (String × ℚ))
    (hnd : (l.map (fun p => p.1)).Nodup) : dictOfList l = l := by
  unfold dictOfList
  rw [dictOfList_aux_eq l [] hnd (fun k _ => rfl)]
  rfl

theorem sum_map_const_val (names : List String) (c : ℚ) :
    wsum (names.map (fun nm => (nm, c))) = (names.length : ℚ) * c := by
  induction names with
  | nil => simp [wsum]
  | cons a t ih =>
    simp only [List.map_cons, wsum, List.sum_cons] at ih ⊢
    rw [ih]
    simp only [List.length_cons]
    push_cast
    ring

/-- The equal-weight dict over distinct names satisfies the sum invariant
and nonnegativity. -/
theorem equalWeightDict_propn (names : List String) (hnd : names.Nodup) :
    SumOk (equalWeightDict names) ∧ WNonneg (equalWeightDict names) := by
  have hkeys : ((names.map (fun nm => (nm, round2 (100 / (names.length : ℚ))))).map
      (fun p => p.1)).Nodup := by
    rw [List.map_map]
    have hc : ((fun p : String × ℚ => p.1) ∘
        fun nm => (nm, round2 (100 / (names.length : ℚ)))) = id := by
      funext nm
      rfl
    rw [hc, List.map_id]
    exact hnd
  have heq : equalWeightDict names =
      names.map (fun nm => (nm, round2 (100 / (names.length : ℚ)))) := by
    unfold equalWeightDict
    exact dictOfList_eq_self _ hkeys
  rw [heq]
  constructor
  · cases names with
    | nil => exact Or.inr (fun p hp => absurd hp (by simp))
    | cons a t =>
      left
      set n : ℚ := (((a :: t).length : ℕ) : ℚ) with hn
      have hnpos : 0 < n := by
        rw [hn]
        exact_mod_cast Nat.succ_pos t.length
      have hsum : wsum ((a :: t).map (fun nm => (nm, round2 (100 / n)))) =
          n * round2 (100 / n) := sum_map_const_val (a :: t) _
      rw [hsum]
      have hr := abs_round2_sub (100 / n)
      have hcancel : n * (100 / n) = 100 := by field_simp
      have hlen : ((((a :: t).map (fun nm => (nm, round2 (100 / n)))).length : ℕ) : ℚ) = n := by
        simp [hn]
      rw [hlen]
      calc |n * round2 (100 / n) - 100|
          = |n * (round2 (100 / n) - 100 / n)| := by rw [mul_sub, hcancel]
        _ = n * |round2 (100 / n) - 100 / n| := by
            rw [abs_mul, abs_of_pos hnpos]
        _ ≤ n * (1 / 200) := by
            exact mul_le_mul_of_nonneg_left hr (le_of_lt hnpos)
        _ = n / 200 := by ring
  · intro p hp
    obtain ⟨nm, _, hpq⟩ := List.mem_map.mp hp
    rw [← hpq]
    have : (0 : ℚ) ≤ 100 / (names.length : ℚ) := by positivity
    simpa using round2_nonneg this

/-- The shared renormalisation establishes the sum invariant from
nonnegativity alone: a positive total yields the rounding bound, a
non-positive total means the (nonnegative) map was all zero. -/
theorem renormKeep_propn (m : WMap) (hN : WNonneg m) :
    SumOk (renormKeep m) ∧ WNonneg (renormKeep m) := by
  unfold renormKeep
  split
  · constructor
    · left
      have hb := wsum_renorm_bound m (by assumption)
      simpa using hb
    · intro q hq
      obtain ⟨p, hp, hpq⟩ := List.mem_map.mp hq
      rw [← hpq]
      have h2 : 0 ≤ p.2 * 100 / wsum m :=
        div_nonneg (mul_nonneg (hN p hp) (by norm_num)) (le_of_lt (by assumption))
      simpa using round2_nonneg h2
  · constructor
    · right
      intro p hp
      have hz := all_zero_of_nonneg_sum_nonpos (m.map (fun p => p.2))
        (fun v hv => by
          obtain ⟨q, hq, hqv⟩ := List.mem_map.mp hv
          rw [← hqv]
          exact hN q hq)
        (le_of_not_lt (by assumption))
      exact hz p.2 (List.mem_map.mpr ⟨p, hp, rfl⟩)
    · exact hN

theorem wnonneg_dictOfList (l : List (String × ℚ)) (h : ∀ p ∈ l, 0 ≤ p.2) :
    WNonneg (dictOfList l) := by
  unfold dictOfList
  exact foldl_preserve WNonneg _ l
    (fun acc p hp hacc => wnonneg_wset hacc p.1 (h p hp)) []
    (fun q hq => absurd hq (by simp))

/-- The common `normalise to 100% or fall back to equal weights` shape
(lines 435-441 and 642-649). -/
theorem renorm_or_equal_propn (d : WMap) (names : List String)
    (hNd : WNonneg d) (hnd : names.Nodup) :
    SumOk (if 0 < wsum d then d.map (fun p => (p.1, round2 (p.2 * 100 / wsum d)))
        else equalWeightDict names) ∧
      WNonneg (if 0 < wsum d then d.map (fun p => (p.1, round2 (p.2 * 100 / wsum d)))
        else equalWeightDict names) := by
  split
  · have h := renormKeep_propn d hNd
    unfold renormKeep at h
    rw [if_pos (by assumption)] at h
    exact h
  · exact equalWeightDict_propn names hnd

theorem wnonneg_assetSplitAdjust (m : WMap) (sel : List Fund)
    (ts : List (String × ℚ)) (hN : WNonneg m) (hts : ∀ p ∈ ts, 0 ≤ p.2) :
    WNonneg (assetSplitAdjust m sel ts) := by
  unfold assetSplitAdjust
  refine foldl_preserve WNonneg _ ts (fun acc p hp hacc => ?_) m hN
  dsimp only
  split
  · split
    · rename_i hcur
      exact wnonneg_scaleFunds hacc _ (div_nonneg (hts p hp) (le_of_lt hcur.2))
    · exact hacc
  · exact hacc

theorem assetSplit_propn (m : WMap) (sel : List Fund) (ts : List (String × ℚ))
    (hN : WNonneg m) (hts : ∀ p ∈ ts, 0 ≤ p.2) :
    SumOk (apply_asset_split_constraints m sel ts) ∧
      WNonneg (apply_asset_split_constraints m sel ts) :=
  renormKeep_propn _ (wnonneg_assetSplitAdjust m sel ts hN hts)

theorem wnonneg_geoSeedZero (m : WMap) (sel : List Fund)
    (gc : List (String × ℚ)) (hN : WNonneg m) (hgc : ∀ p ∈ gc, 0 ≤ p.2) :
    WNonneg (geoSeedZero m sel gc) := by
  unfold geoSeedZero
  refine foldl_preserve WNonneg _ gc (fun acc p hp hacc => ?_) m hN
  dsimp only
  split
  · split
    · refine foldl_preserve WNonneg _ _ (fun acc2 nm _ hacc2 => ?_) acc hacc
      refine wnonneg_wset hacc2 nm (add_nonneg (wget_nonneg hacc2 nm) ?_)
      exact div_nonneg (hgc p hp) (by positivity)
    · exact hacc
  · exact hacc

theorem wnonneg_geoRescale (m : WMap) (sel : List Fund)
    (gc : List (String × ℚ)) (hN : WNonneg m) (hgc : ∀ p ∈ gc, 0 ≤ p.2) :
    WNonneg (geoRescale m sel gc) := by
  unfold geoRescale
  refine foldl_preserve WNonneg _ gc (fun acc p hp hacc => ?_) m hN
  dsimp only
  split
  · split
    · split
      · rename_i hcur
        exact wnonneg_scaleFunds hacc _ (div_nonneg (hgc p hp) (le_of_lt hcur))
      · refine foldl_preserve WNonneg _ _ (fun acc2 nm _ hacc2 => ?_) acc hacc
        exact wnonneg_wset hacc2 nm (div_nonneg (hgc p hp) (by positivity))
    · exact hacc
  · exact hacc

theorem wnonneg_geoGuaranteeMin (m : WMap) (sel : List Fund)
    (gc : List (String × ℚ)) (hN : WNonneg m) :
    WNonneg (geoGuaranteeMin m sel gc) := by
  unfold geoGuaranteeMin
  refine foldl_preserve WNonneg _ _ (fun acc p _ hacc => ?_) m hN
  dsimp only
  split
  · split
    · split
      · exact hacc
      · refine wnonneg_wset hacc _ ?_
        exact le_trans (by norm_num) (le_max_left (1/10 : ℚ) _)
    · exact hacc
  · exact hacc

theorem wnonneg_wdel (m : WMap) (k : String) (hN : WNonneg m) :
    WNonneg (wdel m k) := by
  intro p hp
  exact hN p (List.mem_of_mem_filter hp)

theorem wnonneg_geoPrune (m : WMap) (sel : List Fund) (hN : WNonneg m) :
    WNonneg (geoPrune m sel) := by
  unfold geoPrune
  exact foldl_preserve WNonneg _ _
    (fun acc nm _ hacc => wnonneg_wdel acc nm hacc) m hN

theorem wnonneg_geoPreFinal (m : WMap) (sel : List Fund)
    (gc : List (String × ℚ)) (hN : WNonneg m) (hgc : ∀ p ∈ gc, 0 ≤ p.2) :
    WNonneg (geoPreFinal m sel gc) :=
  wnonneg_geoPrune _ sel
    (wnonneg_geoGuaranteeMin _ sel gc
      (wnonneg_geoRescale _ sel gc (wnonneg_geoSeedZero m sel gc hN hgc) hgc))

theorem geoFinalize_propn (m : WMap) (sel : List Fund) (hN : WNonneg m)
    (hnd : (sel.map (fun f => f.name)).Nodup) :
    SumOk (geoFinalize m sel) ∧ WNonneg (geoFinalize m sel) := by
  unfold geoFinalize
  split
  · have h := renormKeep_propn m hN
    unfold renormKeep at h
    rw [if_pos (by assumption)] at h
    exact h
  · exact equalWeightDict_propn _ hnd

theorem geo_propn (m : WMap) (sel : List Fund) (gc : List (String × ℚ))
    (hN : WNonneg m) (hgc : ∀ p ∈ gc, 0 ≤ p.2)
    (hnd : (sel.map (fun f => f.name)).Nodup) :
    SumOk (apply_geography_constraints m sel gc) ∧
      WNonneg (apply_geography_constraints m sel gc) := by
  unfold apply_geography_constraints
  exact geoFinalize_propn (geoPreFinal m sel gc) sel
    (wnonneg_geoPreFinal m sel gc hN hgc) hnd

theorem tax_propn (m : WMap) (sel : List Fund) (t : ℚ) (hS : SumOk m)
    (hN : WNonneg m) (ht : 0 < t) :
    SumOk (apply_tax_saver_constraint m sel t) ∧
      WNonneg (apply_tax_saver_constraint m sel t) := by
  unfold apply_tax_saver_constraint
  dsimp only
  split
  · rename_i hguard
    exact renormKeep_propn _
      (wnonneg_scaleFunds hN _ (div_nonneg (le_of_lt ht) (le_of_lt hguard.2)))
  · exact ⟨hS, hN⟩

theorem buildWeights_propn (names : List String) (x : List ℚ)
    (hnd : names.Nodup) :
    SumOk (buildWeights names x) ∧ WNonneg (buildWeights names x) := by
  have hNd : WNonneg (dictOfList
      ((names.zip ((x.map (fun v => max v (1/200))).map
        (fun v => v / (x.map (fun v => max v (1/200))).sum))).map
        (fun p => (p.1, round2 (max (1/200) p.2 * 100))))) := by
    refine wnonneg_dictOfList _ (fun p hp => ?_)
    obtain ⟨q, _, hqp⟩ := List.mem_map.mp hp
    rw [← hqp]
    have h1 : (0 : ℚ) ≤ max (1/200) q.2 :=
      le_trans (by norm_num) (le_max_left _ _)
    exact round2_nonneg (mul_nonneg h1 (by norm_num))
  unfold buildWeights
  dsimp only
  exact renorm_or_equal_propn _ names hNd hnd

theorem postAssetSplit_propn (a : OptArgs) (sel : List Fund) (m : WMap)
    (hS : SumOk m) (hN : WNonneg m)
    (hts : ∀ p ∈ a.asset_split_targets, 0 ≤ p.2) :
    SumOk (postAssetSplit a sel m) ∧ WNonneg (postAssetSplit a sel m) := by
  unfold postAssetSplit
  split
  · exact ⟨hS, hN⟩
  · exact assetSplit_propn m sel a.asset_split_targets hN hts

theorem postGeography_propn (a : OptArgs) (sel : List Fund) (m : WMap)
    (hS : SumOk m) (hN : WNonneg m)
    (hgc : ∀ p ∈ a.geography_constraints, 0 ≤ p.2)
    (hnd : (sel.map (fun f => f.name)).Nodup) :
    SumOk (postGeography a sel m) ∧ WNonneg (postGeography a sel m) := by
  unfold postGeography
  split
  · exact geo_propn m sel a.geography_constraints hN hgc hnd
  · exact ⟨hS, hN⟩

theorem postTax_propn (a : OptArgs) (sel : List Fund) (m : WMap)
    (hS : SumOk m) (hN : WNonneg m) :
    SumOk (postTax a sel m) ∧ WNonneg (postTax a sel m) := by
  unfold postTax
  split
  · cases a.tax_saver_target_pct with
    | none => exact ⟨hS, hN⟩
    | some t =>
      dsimp only
      split
      · exact tax_propn m sel t hS hN (by assumption)
      · exact ⟨hS, hN⟩
  · exact ⟨hS, hN⟩

theorem postProcess_propn (a : OptArgs) (sel : List Fund) (m : WMap)
    (hS : SumOk m) (hN : WNonneg m)
    (hts : ∀ p ∈ a.asset_split_targets, 0 ≤ p.2)
    (hgc : ∀ p ∈ a.geography_constraints, 0 ≤ p.2)
    (hnd : (sel.map (fun f => f.name)).Nodup) :
    SumOk (postProcess a sel m) ∧ WNonneg (postProcess a sel m) := by
  unfold postProcess
  have h1 := postAssetSplit_propn a sel m hS hN hts
  have h2 := postGeography_propn a sel (postAssetSplit a sel m) h1.1 h1.2 hgc hnd
  exact postTax_propn a sel _ h2.1 h2.2

/-- Concrete evaluation: the solver output `[1/2, 1/2]` over funds A and B
normalises to the dict `{"A": 50, "B": 50}` (lines 420-441). -/
theorem buildWeights_eval_half :
    buildWeights ["A", "B"] [1/2, 1/2] = [("A", 50), ("B", 50)] := by
  simp only [buildWeights, dictOfList, wset, wmem, wget, wsum,
    List.foldl, List.zip, List.zipWith, List.map, List.any, List.sum_cons,
    List.sum_nil, String.reduceBEq, Bool.cond_false, Bool.cond_true,
    Bool.or_false, Bool.or_true, Bool.false_or, Bool.true_or,
    List.nil_append, List.cons_append, List.append_nil]
  norm_num [round2, round_eq]

/-- Concrete evaluation: with the asset-split target `{"equity": 0}` and
both funds of type equity, the pass scales every weight by 0, the
renormalisation total is 0, so the pass returns the all-zero map
unnormalised (the `if total > 0` guard of line 537 skips). -/
theorem postProcess_eval_zeroEquity :
    postProcess argsABZeroEquity [fundA, fundB] [("A", 50), ("B", 50)] =
      [("A", 0), ("B", 0)] := by
  simp only [postProcess, postAssetSplit, postGeography, postTax,
    argsABZeroEquity, fundA, fundB,
    apply_asset_split_constraints, assetSplitAdjust, typeFunds, normType,
    scaleFunds, renormKeep, wset, wmem, wget, wsum, dictOfList,
    List.foldl, List.map, List.any, List.filter, List.isEmpty,
    List.sum_cons, List.sum_nil, List.lookup,
    String.reduceBEq, String.reduceEq, Bool.cond_false, Bool.cond_true,
    Bool.or_false, Bool.or_true, Bool.false_or, Bool.true_or, Bool.and_self,
    List.nil_append, List.cons_append, List.append_nil]
  norm_num [round2, round_eq]

/--
C3 counterexample: a complete `risk_folio` call (INR, two equity funds
suggested by name, valid 10-day series, solver returning equal weights)
with asset-split target `{"equity": 0}` returns the weights map
`{"A": 0, "B": 0}`, whose sum 0 is NOT within 0.5 of 100 — the
asset-split pass's zero-total escape (line 537) breaks the claimed sum
invariant. -/
theorem c3_counterexample :
    riskFolio [fundA, fundB] argsABZeroEquity (SolverOutcome.ok [1/2, 1/2]) =
      .ok { weights := some [("A", 0), ("B", 0)], funds := some ["A", "B"],
            model_used := some "risk_parity", risk_measure := some "Variance",
            optimization_success := some true, total_weight := some 0 } ∧
      ¬ |wsum [("A", (0 : ℚ)), ("B", 0)] - 100| ≤ 1/2 := by
  constructor
  · have hsel : selectFunds [fundA, fundB] argsABZeroEquity = [fundA, fundB] := rfl
    have hv : fundA.returns_series = RSeries.valid (List.replicate 10 (1/100)) := rfl
    have hfind : [fundA, fundB].find? (fun g => ! g.returns_series.isValid) = none := rfl
    have hmin : minSeriesLen [fundA, fundB] = 10 := rfl
    have hnames : [fundA, fundB].map (fun f => f.name) = ["A", "B"] := rfl
    have hmr : select_optimization_model argsABZeroEquity.primary_risk_bucket
        argsABZeroEquity.sub_risk_bucket argsABZeroEquity.volatility_target_pct
        argsABZeroEquity.drawdown_target_pct = ("risk_parity", "Variance") := by decide
    unfold riskFolio
    rw [hsel]
    simp only [hv, hfind, hmin, List.length_cons, List.length_nil, hmr, hnames]
    norm_num [buildWeights_eval_half, postProcess_eval_zeroEquity,
      successResult, wsum]
    exact ⟨rfl, rfl⟩
  · norm_num [wsum]

/--
C3 (amended): for every call to `risk_folio` that returns a weights map,
provided all asset-split and geography targets are nonnegative and the
selected funds have distinct names, either the sum of the weights lies
within `n/200` of 100 (n = number of entries) — hence within 0.5 of 100
whenever at most 100 entries — or every returned weight is 0 (which
happens when the asset-split pass's renormalisation total is zero, the
case the counterexample exhibits). -/
theorem c3_sum_invariant (df : List Fund) (a : OptArgs) (solver : SolverOutcome)
    (r : Result) (w : WMap) (hr : riskFolio df a solver = .ok r)
    (hw : r.weights = some w)
    (hts : ∀ p ∈ a.asset_split_targets, 0 ≤ p.2)
    (hgc : ∀ p ∈ a.geography_constraints, 0 ≤ p.2)
    (hnd : ((selectFunds df a).map (fun f => f.name)).Nodup) :
    (|wsum w - 100| ≤ (w.length : ℚ) / 200 ∨ ∀ p ∈ w, p.2 = 0) ∧
      (w.length ≤ 100 → (|wsum w - 100| ≤ 1/2 ∨ ∀ p ∈ w, p.2 = 0)) := by
  have key : SumOk w := by
    cases hsel : selectFunds df a with
    | nil =>
      unfold riskFolio at hr
      rw [hsel] at hr
      injection hr with hr'
      rw [← hr'] at hw
      simp [zeroFundsResult] at hw
    | cons f0 rest =>
      rw [hsel] at hnd
      unfold riskFolio at hr
      rw [hsel] at hr
      cases hv : f0.returns_series with
      | invalid n =>
        simp only [hv] at hr
        exact Except.noConfusion hr
      | valid vals =>
        cases hfind : (f0 :: rest).find? (fun g => ! g.returns_series.isValid) with
        | some g =>
          simp only [hv, hfind] at hr
          exact Except.noConfusion hr
        | none =>
          simp only [hv, hfind] at hr
          by_cases hl : (f0 :: rest).length < 2
          · rw [if_pos hl] at hr
            injection hr with hr'
            rw [← hr'] at hw
            simp only [singleFundResult] at hw
            obtain rfl := Option.some.inj hw
            left
            norm_num [wsum]
          · rw [if_neg hl] at hr
            by_cases hm2 : minSeriesLen (f0 :: rest) < 2
            · rw [if_pos hm2] at hr
              exact Except.noConfusion hr
            · rw [if_neg hm2] at hr
              by_cases hm10 : minSeriesLen (f0 :: rest) < 10
              · rw [if_pos hm10] at hr
                injection hr with hr'
                rw [← hr'] at hw
                simp only [fallbackResult] at hw
                obtain rfl := Option.some.inj hw
                exact (equalWeightDict_propn _ hnd).1
              · rw [if_neg hm10] at hr
                cases solver with
                | err msg =>
                  injection hr with hr'
                  rw [← hr'] at hw
                  simp only [fallbackResult] at hw
                  obtain rfl := Option.some.inj hw
                  exact (equalWeightDict_propn _ hnd).1
                | ok x =>
                  injection hr with hr'
                  rw [← hr'] at hw
                  simp only [successResult] at hw
                  obtain rfl := Option.some.inj hw
                  have hbw := buildWeights_propn ((f0 :: rest).map (fun f => f.name)) x hnd
                  exact (postProcess_propn a (f0 :: rest) _ hbw.1 hbw.2 hts hgc hnd).1
  refine ⟨key, fun hlen => ?_⟩
  rcases key with hb | hz
  · left
    have hcast : ((w.length : ℕ) : ℚ) ≤ 100 := by exact_mod_cast hlen
    calc |wsum w - 100| ≤ (w.length : ℚ) / 200 := hb
      _ ≤ 100 / 200 := by linarith
      _ = 1/2 := by norm_num
  · right
    exact hz

/-- Witness for C3 (amended), on the single-fund shortcut result. -/
theorem c3_sum_invariant_witness :
    riskFolio [fundA, fundB] argsOnlyA (SolverOutcome.ok [1/2, 1/2]) =
        .ok (singleFundResult fundA) ∧
      (singleFundResult fundA).weights = some [("A", 100)] ∧
      (∀ p ∈ argsOnlyA.asset_split_targets, (0:ℚ) ≤ p.2) ∧
      (∀ p ∈ argsOnlyA.geography_constraints, (0:ℚ) ≤ p.2) ∧
      ((selectFunds [fundA, fundB] argsOnlyA).map (fun f => f.name)).Nodup ∧
      ((|wsum [("A", (100:ℚ))] - 100| ≤ (([("A", (100:ℚ))].length : ℕ) : ℚ) / 200 ∨
          ∀ p ∈ [("A", (100:ℚ))], p.2 = 0) ∧
        ([("A", (100:ℚ))].length ≤ 100 →
          (|wsum [("A", (100:ℚ))] - 100| ≤ 1/2 ∨ ∀ p ∈ [("A", (100:ℚ))], p.2 = 0))) :=
  ⟨rfl, rfl, by decide, by decide, by decide,
    c3_sum_invariant [fundA, fundB] argsOnlyA (SolverOutcome.ok [1/2, 1/2])
      (singleFundResult fundA) [("A", 100)] rfl rfl (by decide) (by decide)
      (by decide)⟩

/-!
Claim C4: the geography guarantee of `apply_geography_constraints`.
-/

theorem wget_wset_self (m : WMap) (k : String) (v : ℚ) :
    wget (wset m k v) k = v := by
  unfold wget
  rw [lookup_wset_self]
  rfl

theorem wget_wset_other (m : WMap) (k k' : String) (v : ℚ) (h : k' ≠ k) :
    wget (wset m k v) k' = wget m k' := by
  unfold wget
  rw [lookup_wset_other m k k' v h]

theorem lookup_of_wget_pos {m : WMap} {k : String} (h : 0 < wget m k) :
    m.lookup k = some (wget m k) := by
  unfold wget at h ⊢
  cases hl : m.lookup k with
  | none => rw [hl] at h; simp at h
  | some v => rfl

theorem wmem_of_wget_pos {m : WMap} {k : String} (h : 0 < wget m k) :
    wmem m k = true :=
  wmem_of_lookup_some (lookup_of_wget_pos h)

theorem mem_geoFunds_iff (sel : List Fund) (g : String) (nm : String) :
    nm ∈ geoFunds sel g ↔ ∃ f ∈ sel, f.geography = g ∧ f.name = nm := by
  unfold geoFunds
  constructor
  · intro h
    obtain ⟨f, hf, hfn⟩ := List.mem_map.mp h
    obtain ⟨hfs, hfg⟩ := List.mem_filter.mp hf
    exact ⟨f, hfs, by simpa using hfg, hfn⟩
  · rintro ⟨f, hfs, hfg, hfn⟩
    exact List.mem_map.mpr ⟨f, List.mem_filter.mpr ⟨hfs, by simpa using hfg⟩, hfn⟩

/-- With distinct fund names, the per-geography fund-name lists are
pairwise disjoint. -/
theorem geoFunds_disjoint (sel : List Fund)
    (hnd : (sel.map (fun f => f.name)).Nodup) (g g' : String) (hgg : g ≠ g')
    (nm : String) (h1 : nm ∈ geoFunds sel g) (h2 : nm ∈ geoFunds sel g') :
    False := by
  obtain ⟨f, hfs, hfg, hfn⟩ := (mem_geoFunds_iff sel g nm).mp h1
  obtain ⟨f', hfs', hfg', hfn'⟩ := (mem_geoFunds_iff sel g' nm).mp h2
  have hf : f = f' :=
    List.inj_on_of_nodup_map hnd hfs hfs' (by rw [hfn, hfn'])
  rw [hf] at hfg
  exact hgg (hfg ▸ hfg'.symm ▸ rfl)

theorem nodupKeys_wset {m : WMap} {k : String} (v : ℚ)
    (hnd : (m.map (fun p => p.1)).Nodup) :
    ((wset m k v).map (fun p => p.1)).Nodup := by
  cases hm : wmem m k with
  | true => rw [keys_wset_of_mem v hm]; exact hnd
  | false =>
    rw [wset_of_wmem_false v hm, List.map_append]
    rw [List.nodup_append]
    refine ⟨hnd, by simp, ?_⟩
    intro a ha hb
    simp only [List.map_cons, List.map_nil, List.mem_singleton] at hb
    rw [hb] at ha
    rw [wmem_eq_keys_any] at hm
    have : (m.map (fun p => p.1)).any (fun s => s == k) = true :=
      List.any_eq_true.mpr ⟨k, ha, by simp⟩
    rw [hm] at this
    cases this

theorem nodupKeys_foldl_wset {α : Type} (step : WMap → α → WMap) (L : List α)
    (hstep : ∀ acc y, y ∈ L → (acc.map (fun p => p.1)).Nodup →
      ((step acc y).map (fun p => p.1)).Nodup)
    (m : WMap) (hnd : (m.map (fun p => p.1)).Nodup) :
    ((L.foldl step m).map (fun p => p.1)).Nodup :=
  foldl_preserve (fun acc => (acc.map (fun p => p.1)).Nodup) step L hstep m hnd

theorem nodupKeys_scaleFunds (m : WMap) (L : List String) (f : ℚ)
    (hnd : (m.map (fun p => p.1)).Nodup) :
    ((scaleFunds m L f).map (fun p => p.1)).Nodup := by
  rw [keys_scaleFunds]
  exact hnd

theorem nodupKeys_geoSeedZero (m : WMap) (sel : List Fund)
    (gc : List (String × ℚ)) (hnd : (m.map (fun p => p.1)).Nodup) :
    ((geoSeedZero m sel gc).map (fun p => p.1)).Nodup := by
  unfold geoSeedZero
  refine nodupKeys_foldl_wset _ gc (fun acc p _ hacc => ?_) m hnd
  dsimp only
  split
  · split
    · exact nodupKeys_foldl_wset _ _
        (fun acc2 nm _ hacc2 => nodupKeys_wset _ hacc2) acc hacc
    · exact hacc
  · exact hacc

theorem nodupKeys_geoRescale (m : WMap) (sel : List Fund)
    (gc : List (String × ℚ)) (hnd : (m.map (fun p => p.1)).Nodup) :
    ((geoRescale m sel gc).map (fun p => p.1)).Nodup := by
  unfold geoRescale
  refine nodupKeys_foldl_wset _ gc (fun acc p _ hacc => ?_) m hnd
  dsimp only
  split
  · split
    · split
      · exact nodupKeys_scaleFunds acc _ _ hacc
      · exact nodupKeys_foldl_wset _ _
          (fun acc2 nm _ hacc2 => nodupKeys_wset _ hacc2) acc hacc
    · exact hacc
  · exact hacc

theorem nodupKeys_geoGuaranteeMin (m : WMap) (sel : List Fund)
    (gc : List (String × ℚ)) (hnd : (m.map (fun p => p.1)).Nodup) :
    ((geoGuaranteeMin m sel gc).map (fun p => p.1)).Nodup := by
  unfold geoGuaranteeMin
  refine nodupKeys_foldl_wset _ _ (fun acc p _ hacc => ?_) m hnd
  dsimp only
  split
  · split
    · split
      · exact hacc
      · exact nodupKeys_wset _ hacc
    · exact hacc
  · exact hacc

/-- Step 3 of the geography pass establishes: after `geoGuaranteeMin`,
every geography with positive target and at least one fund has a fund
carrying weight strictly above 0.01. -/
theorem geoGuaranteeMin_establishes (st2 : WMap) (sel : List Fund)
    (gc : List (String × ℚ)) (g : String) (pct : ℚ)
    (hmem : (g, pct) ∈ gc) (hpct : 0 < pct)
    (hfund : ∃ f ∈ sel, f.geography = g)
    (hnd : (sel.map (fun f => f.name)).Nodup) :
    ∃ nm ∈ geoFunds sel g, 1/100 < wget (geoGuaranteeMin st2 sel gc) nm := by
  have hany : (sel.any (fun f => f.geography == g)) = true := by
    obtain ⟨f, hfs, hfg⟩ := hfund
    exact List.any_eq_true.mpr ⟨f, hfs, by simp [hfg]⟩
  have hne : ∃ nm0 t0, geoFunds sel g = nm0 :: t0 := by
    obtain ⟨f, hfs, hfg⟩ := hfund
    have : f.name ∈ geoFunds sel g := (mem_geoFunds_iff sel g f.name).mpr ⟨f, hfs, hfg, rfl⟩
    cases hfl : geoFunds sel g with
    | nil => rw [hfl] at this; cases this
    | cons nm0 t0 => exact ⟨nm0, t0, rfl⟩
  unfold geoGuaranteeMin
  have hx : ((g, pct) : String × ℚ) ∈ gc.filter (fun p => 0 < p.2) :=
    List.mem_filter.mpr ⟨hmem, by simpa using hpct⟩
  refine foldl_establish (fun acc => ∃ nm ∈ geoFunds sel g, 1/100 < wget acc nm)
    _ _ (g, pct) hx (fun acc => ?_) (fun acc y _ hP => ?_) st2
  · -- establishment at (g, pct)
    dsimp only
    rw [if_pos hany]
    cases hhf : (geoFunds sel g).any
        (fun nm => wmem acc nm && decide (1/100 < wget acc nm)) with
    | true =>
      obtain ⟨nm, hnm, hb⟩ := List.any_eq_true.mp hhf
      have hgt : 1/100 < wget acc nm := by
        have hb2 : wmem acc nm = true ∧ 1/100 < wget acc nm := by simpa using hb
        exact hb2.2
      rw [if_neg (by simp [hhf])]
      exact ⟨nm, hnm, hgt⟩
    | false =>
      obtain ⟨nm0, t0, hfl⟩ := hne
      rw [if_pos ⟨by simp [hhf], by rw [hfl]; simp⟩]
      simp only [hfl]
      refine ⟨nm0, List.mem_cons_self nm0 t0, ?_⟩
      rw [wget_wset_self]
      calc (1 : ℚ)/100 < 1/10 := by norm_num
        _ ≤ max (1/10) (((gc.lookup g).getD 0) / ((nm0 :: t0).length : ℚ)) :=
            le_max_left _ _
  · -- preservation at any (g', pct') in the active list
    obtain ⟨nm, hnm, hgt⟩ := hP
    dsimp only
    by_cases hguard : (sel.any (fun f => f.geography == y.1)) = true
    · rw [if_pos hguard]
      cases hhf : (geoFunds sel y.1).any
          (fun nm2 => wmem acc nm2 && decide (1/100 < wget acc nm2)) with
      | true =>
        rw [if_neg (by simp [hhf])]
        exact ⟨nm, hnm, hgt⟩
      | false =>
        cases hfl : geoFunds sel y.1 with
        | nil =>
          rw [if_neg (by simp)]
          exact ⟨nm, hnm, hgt⟩
        | cons nm' t' =>
          rw [if_pos ⟨by simp [hhf], by simp⟩]
          have hwpos : 0 < wget acc nm := lt_trans (by norm_num) hgt
          have hnne : nm' ≠ nm := by
            intro he
            subst he
            have hnm' : nm' ∈ geoFunds sel y.1 := by
              rw [hfl]
              exact List.mem_cons_self nm' t'
            by_cases hgy : y.1 = g
            · rw [hgy] at hhf
              have : (geoFunds sel g).any
                  (fun nm2 => wmem acc nm2 && decide (1/100 < wget acc nm2)) = true :=
                List.any_eq_true.mpr ⟨nm', hnm, by
                  simp only [Bool.and_eq_true, decide_eq_true_eq]
                  exact ⟨wmem_of_wget_pos hwpos, hgt⟩⟩
              rw [this] at hhf
              cases hhf
            · exact geoFunds_disjoint sel hnd g y.1 (fun he2 => hgy he2.symm)
                nm' hnm hnm'
          refine ⟨nm, hnm, ?_⟩
          rw [wget_wset_other acc nm' nm _ (fun he => hnne he.symm)]
          exact hgt
    · rw [if_neg hguard]
      exact ⟨nm, hnm, hgt⟩

theorem lookup_wdel_other (m : WMap) (k nm : String) (h : nm ≠ k) :
    (wdel m k).lookup nm = m.lookup nm := by
  unfold wdel
  induction m with
  | nil => rfl
  | cons p t ih =>
    by_cases hpk : p.1 = k
    · have h1 : (! (p.1 == k)) = false := by simp [hpk]
      have h2 : (nm == p.1) = false := by simp [hpk, h]
      simp [List.filter, h1, List.lookup, h2, ih]
    · have h1 : (! (p.1 == k)) = true := by simp [hpk]
      by_cases hk2 : nm = p.1 <;> simp [List.filter, h1, List.lookup, hk2, ih]

theorem lookup_foldl_wdel (l : List String) (m : WMap) (nm : String)
    (h : nm ∉ l) :
    (l.foldl (fun acc k => wdel acc k) m).lookup nm = m.lookup nm := by
  induction l generalizing m with
  | nil => rfl
  | cons a t ih =>
    have hna : nm ≠ a := fun he => h (he ▸ List.mem_cons_self a t)
    rw [List.foldl_cons, ih (wdel m a) (fun hc => h (List.mem_cons_of_mem a hc))]
    exact lookup_wdel_other m a nm hna

/-- Step 4 of the geography pass never removes an entry carrying more than
0.01 (for a duplicate-free map). -/
theorem geoPrune_keeps (m : WMap) (sel : List Fund) (nm : String) (v : ℚ)
    (hndk : (m.map (fun p => p.1)).Nodup) (hl : m.lookup nm = some v)
    (hv : 1/100 < v) : (geoPrune m sel).lookup nm = some v := by
  unfold geoPrune
  dsimp only
  rw [lookup_foldl_wdel _ m nm ?hnotin]
  · exact hl
  case hnotin =>
    intro hin
    obtain ⟨p, hpf, hpn⟩ := List.mem_map.mp hin
    have hpm := List.mem_of_mem_filter hpf
    have hsmall : p.2 < 1/100 := by
      have hb := (List.mem_filter.mp hpf).2
      rw [Bool.and_eq_true] at hb
      simpa using hb.1
    have hpv : p = (nm, v) :=
      List.inj_on_of_nodup_map hndk hpm (mem_of_lookup_eq_some hl) (by rw [hpn])
    rw [hpv] at hsmall
    simp at hsmall
    linarith

/-- Concrete evaluation of step 1 on the counterexample input. -/
theorem geoSeedZero_eval_cex :
    geoSeedZero [("C", 1000000)] [fundB, fundC] [("India", 40)] =
      [("C", 1000000), ("B", 40)] := by
  simp [geoSeedZero, geoFunds, wset, wmem, wget, fundB, fundC,
    List.foldl, List.lookup, show (0:ℚ) < 40 from by norm_num]

/-- Concrete evaluation of step 2 on the counterexample input. -/
theorem geoRescale_eval_cex :
    geoRescale [("C", 1000000), ("B", 40)] [fundB, fundC] [("India", 40)] =
      [("C", 1000000), ("B", 40)] := by
  simp [geoRescale, geoFunds, scaleFunds, wset, wmem, wget, fundB, fundC,
    List.foldl, List.lookup, show (0:ℚ) < 40 from by norm_num,
    show (40:ℚ) * (40/40) = 40 from by norm_num]

/-- Concrete evaluation of step 3 on the counterexample input. -/
theorem geoGuaranteeMin_eval_cex :
    geoGuaranteeMin [("C", 1000000), ("B", 40)] [fundB, fundC] [("India", 40)] =
      [("C", 1000000), ("B", 40)] := by
  simp [geoGuaranteeMin, geoFunds, wset, wmem, wget, fundB, fundC,
    List.foldl, List.lookup, show (0:ℚ) < 40 from by norm_num,
    decide_eq_true (by norm_num : (1:ℚ)/100 < 40)]
  intro h
  norm_num at h

/-- Concrete evaluation of step 4 on the counterexample input. -/
theorem geoPrune_eval_cex :
    geoPrune [("C", 1000000), ("B", 40)] [fundB, fundC] =
      [("C", 1000000), ("B", 40)] := by
  simp [geoPrune, wdel, wget, fundB, fundC,
    List.foldl, List.find?, List.lookup,
    decide_eq_false (by norm_num : ¬ (1000000:ℚ) < 1/100),
    decide_eq_false (by norm_num : ¬ (40:ℚ) < 1/100)]

/-- Concrete evaluation of the final renormalisation on the
counterexample input: fund B's 40 points shrink to `4000/1000040 < 0.005`
and round to exactly 0. -/
theorem geoFinalize_eval_cex :
    geoFinalize [("C", 1000000), ("B", 40)] [fundB, fundC] =
      [("C", 100), ("B", 0)] := by
  simp [geoFinalize, wsum,
    show (1000000:ℚ) + (40 + 0) = 1000040 from by norm_num,
    show (0:ℚ) < 1000040 from by norm_num]
  norm_num [round2, round_eq]

/--
C4 counterexample: with funds B (India) and C (Japan), input weights
`{"C": 1000000}` and the positive-target constraint `{"India": 40}`, the
returned map is `{"C": 100, "B": 0}` — B is the only India fund, India's
target is positive, yet B's returned weight is 0 (the final
renormalisation rounds `40·100/1000040` down to 0), refuting the claimed
guarantee of weight > 0. -/
theorem c4_counterexample :
    apply_geography_constraints [("C", 1000000)] [fundB, fundC]
        [("India", 40)] = [("C", 100), ("B", 0)] ∧
      ([fundB, fundC].filter (fun f => f.geography == "India")).map
        (fun f => f.name) = ["B"] ∧
      (0 : ℚ) < 40 ∧
      List.lookup "B" [("C", (100 : ℚ)), ("B", 0)] = some 0 ∧
      ¬ (0 : ℚ) < 0 := by
  refine ⟨?_, rfl, by norm_num, rfl, by norm_num⟩
  unfold apply_geography_constraints geoPreFinal
  rw [geoSeedZero_eval_cex, geoRescale_eval_cex, geoGuaranteeMin_eval_cex,
    geoPrune_eval_cex, geoFinalize_eval_cex]

/--
C4 (amended): for every duplicate-free weights map and duplicate-free
fund set, if `geography_constraints` assigns a positive target to a
geography that has at least one selected fund, then the map returned by
`apply_geography_constraints` gives some fund of that geography a
strictly positive weight — PROVIDED the total weight entering the final
renormalisation is positive and at most 200 (without the bound, the final
rounding can send the guaranteed fund's share to exactly 0, as the
counterexample shows; realistic inputs with weights summing near 100
satisfy it). -/
theorem c4_geography_guarantee (m : WMap) (sel : List Fund)
    (gc : List (String × ℚ)) (g : String) (pct : ℚ)
    (hmem : (g, pct) ∈ gc) (hpct : 0 < pct)
    (hfund : ∃ f ∈ sel, f.geography = g)
    (hndk : (m.map (fun p => p.1)).Nodup)
    (hnd : (sel.map (fun f => f.name)).Nodup)
    (htpos : 0 < wsum (geoPreFinal m sel gc))
    (htle : wsum (geoPreFinal m sel gc) ≤ 200) :
    ∃ f ∈ sel, f.geography = g ∧
      ∃ v, (apply_geography_constraints m sel gc).lookup f.name = some v ∧
        0 < v := by
  obtain ⟨nm, hnm, hgt⟩ := geoGuaranteeMin_establishes
    (geoRescale (geoSeedZero m sel gc) sel gc) sel gc g pct hmem hpct hfund hnd
  have hnd3 : ((geoGuaranteeMin (geoRescale (geoSeedZero m sel gc) sel gc)
      sel gc).map (fun p => p.1)).Nodup :=
    nodupKeys_geoGuaranteeMin _ sel gc
      (nodupKeys_geoRescale _ sel gc (nodupKeys_geoSeedZero m sel gc hndk))
  have hlook3 : (geoGuaranteeMin (geoRescale (geoSeedZero m sel gc) sel gc)
        sel gc).lookup nm =
      some (wget (geoGuaranteeMin (geoRescale (geoSeedZero m sel gc) sel gc)
        sel gc) nm) :=
    lookup_of_wget_pos (lt_trans (by norm_num) hgt)
  have hkeep : (geoPreFinal m sel gc).lookup nm =
      some (wget (geoGuaranteeMin (geoRescale (geoSeedZero m sel gc) sel gc)
        sel gc) nm) :=
    geoPrune_keeps _ sel nm _ hnd3 hlook3 hgt
  obtain ⟨f, hfs, hfg, hfn⟩ := (mem_geoFunds_iff sel g nm).mp hnm
  refine ⟨f, hfs, hfg, ?_⟩
  unfold apply_geography_constraints geoFinalize
  rw [if_pos htpos, hfn]
  rw [lookup_mapValues (geoPreFinal m sel gc)
    (fun v => round2 (v * 100 / wsum (geoPreFinal m sel gc))) nm]
  rw [hkeep]
  refine ⟨_, rfl, ?_⟩
  apply round2_pos
  set v3 := wget (geoGuaranteeMin (geoRescale (geoSeedZero m sel gc) sel gc)
    sel gc) nm with hv3
  set t := wsum (geoPreFinal m sel gc) with ht
  rw [div_le_div_iff (by norm_num) htpos]
  nlinarith [hgt, htle, htpos]

/-- Concrete evaluation of the pre-renormalisation state for the C4
witness input: `{"B": 60}` is rescaled to India's target 40. -/
theorem geoPreFinal_eval_witness :
    geoPreFinal [("B", 60)] [fundB] [("India", 40)] = [("B", 40)] := by
  have h1 : geoSeedZero [("B", 60)] [fundB] [("India", 40)] = [("B", 60)] := by
    simp [geoSeedZero, geoFunds, wset, wmem, wget, fundB,
      List.foldl, List.lookup, show (0:ℚ) < 40 from by norm_num,
      show ¬ (60:ℚ) = 0 from by norm_num]
  have h2 : geoRescale [("B", 60)] [fundB] [("India", 40)] = [("B", 40)] := by
    simp [geoRescale, geoFunds, scaleFunds, wset, wmem, wget, fundB,
      List.foldl, List.lookup, show (0:ℚ) < 60 from by norm_num,
      show (60:ℚ) * (40/60) = 40 from by norm_num]
  have h3 : geoGuaranteeMin [("B", 40)] [fundB] [("India", 40)] = [("B", 40)] := by
    simp [geoGuaranteeMin, geoFunds, wset, wmem, wget, fundB,
      List.foldl, List.lookup, show (0:ℚ) < 40 from by norm_num,
      decide_eq_true (by norm_num : (1:ℚ)/100 < 40)]
    intro h
    norm_num at h
  have h4 : geoPrune [("B", 40)] [fundB] = [("B", 40)] := by
    simp [geoPrune, wdel, wget, fundB, List.foldl, List.find?, List.lookup,
      decide_eq_false (by norm_num : ¬ (40:ℚ) < 1/100)]
  unfold geoPreFinal
  rw [h1, h2, h3, h4]

/-- Witness for C4 (amended): a single India fund with weight 60 and
target 40; the pre-renormalisation total is 40, within (0, 200]. -/
theorem c4_geography_guarantee_witness :
    (("India", (40:ℚ)) ∈ [(("India":String), (40:ℚ))] ∧ (0:ℚ) < 40 ∧
        (∃ f ∈ [fundB], f.geography = "India") ∧
        0 < wsum (geoPreFinal [("B", 60)] [fundB] [("India", 40)]) ∧
        wsum (geoPreFinal [("B", 60)] [fundB] [("India", 40)]) ≤ 200) ∧
      ∃ f ∈ [fundB], f.geography = "India" ∧
        ∃ v, (apply_geography_constraints [("B", 60)] [fundB]
          [("India", 40)]).lookup f.name = some v ∧ 0 < v := by
  have htpos : 0 < wsum (geoPreFinal [("B", 60)] [fundB] [("India", 40)]) := by
    rw [geoPreFinal_eval_witness]
    norm_num [wsum]
  have htle : wsum (geoPreFinal [("B", 60)] [fundB] [("India", 40)]) ≤ 200 := by
    rw [geoPreFinal_eval_witness]
    norm_num [wsum]
  refine ⟨⟨List.mem_singleton_self _, by norm_num,
    ⟨fundB, List.mem_singleton_self _, rfl⟩, htpos, htle⟩, ?_⟩
  exact c4_geography_guarantee [("B", 60)] [fundB] [("India", 40)] "India" 40
    (List.mem_singleton_self _) (by norm_num)
    ⟨fundB, List.mem_singleton_self _, rfl⟩ (by decide) (by decide) htpos htle

end MFTool
